import Mathlib

/-!
Shallow embedding of the distributed job-scheduling core of the rtags
coordinator (`src/Server.cpp`), together with proofs about the claims of
its specification.

The embedding models the server's main-thread state: the job store
(shared `IndexerJob` objects referenced by id from several tables), the
`pending` queue, the `processing` map, the `local_jobs` table, the
outstanding `pending_job_requests`, the peer registry (hash map plus the
round-robin linked list, represented together as an ordered association
list of immutable `Remote` records), and the `announced` flag.  Each
message handler of `Server.cpp` becomes a pure function from state to
state (plus the observable outputs it produces: results forwarded to a
project, messages sent, timers scheduled).  Machine integers that can go
negative in the C++ (the slot counter `jobs` in `Server::work`) are
modelled as `Int`; monotonic millisecond clocks as `Nat`.
-/

namespace RTags

/-- The `IndexerJob::Flag` bitset (IndexerJob.h lines 31-46), one field per
bit.  `flags |= F` / `flags &= ~F` become field updates, `flags & (A|B)`
becomes a disjunction of fields. -/
structure Flags where
  dirty : Bool := false
  compile : Bool := false
  fromRemote : Bool := false
  remote : Bool := false
  rescheduled : Bool := false
  runningLocal : Bool := false
  crashed : Bool := false
  aborted : Bool := false
  completeLocal : Bool := false
  completeRemote : Bool := false
  preprocessCompressed : Bool := false
  highPriority : Bool := false
  deriving Repr, DecidableEq

/-- `flags & (IndexerJob::CompleteLocal|IndexerJob::CompleteRemote)`. -/
def Flags.complete (f : Flags) : Bool :=
  f.completeLocal || f.completeRemote

/-- The part of `Unit` (Unit.h) the scheduling core reads and writes: the
preprocessed blob (a byte list; `isEmpty` is `= []`) and the flag bitset. -/
structure Unit' where
  preprocessed : List Nat := []
  flags : Flags := {}
  deriving Repr, DecidableEq

/-- The part of `IndexerJob` the scheduler uses: its owning project root,
its shared `unit`, and the `started` timestamp (monotonic ms, set when the
job is shipped to a peer). -/
structure IndexerJob where
  project : String := ""
  unit : Unit' := {}
  started : Nat := 0
  deriving Repr, DecidableEq

/-- A `Server::Remote` record.  Its `host`/`port` fields are never
reassigned after construction in `Server.cpp`; only its position in the
intrusive linked list changes. -/
structure RemoteRec where
  host : String
  port : Nat
  deriving Repr, DecidableEq

/-- Outputs of one run of `Server::work`: whether the announcement branch
sent a `JobAnnouncement`/`ProxyJobAnnouncement`, and the `JobRequest`
dispatched to a peer (host and requested slot count), if any. -/
structure WorkOut where
  announceSent : Bool := false
  jobRequest : Option (String × Nat) := none
  deriving Repr, DecidableEq

/-- The scheduler-relevant state of `Server`.  Jobs live in a store
`jobs : Nat → IndexerJob` (the heap of shared `IndexerJob` objects, keyed
by `IndexerJob::id`); `pending`, `processing` and `localJobs` hold ids into
that store, so that a flag update made through one table is seen through
the others, as with the C++ shared pointers.

The peer registry `remotes` is the ordered association list
`(key, record)`: list order is the intrusive linked list order
(`mFirstRemote` first), keys are the hash-map keys of `mRemotes` (the
announced host string, possibly empty), records are the immutable
`Remote` objects. -/
structure ServerState where
  jobs : Nat → IndexerJob
  pending : List Nat := []
  processing : List Nat := []
  localJobs : List (Nat × Nat × Nat) := []
  pendingJobRequests : List (Nat × Nat) := []
  remotes : List (String × RemoteRec) := []
  announced : Bool := false
  poolLoad : Nat := 0
  pendingPreprocessCount : Nat := 0
  jobCount : Nat := 1
  maxPendingPreprocessSize : Nat := 0
  noLocalCompiles : Bool := false
  isJobServer : Bool := false
  noJobServer : Bool := false
  serverConnection : Bool := false
  rescheduleTimeout : Nat := 0
  nextPid : Nat := 0
  nextConn : Nat := 0

/-- Point update of the job store: mutation of the shared `IndexerJob`
object with the given id. -/
def updateJob (store : Nat → IndexerJob) (id : Nat) (f : IndexerJob → IndexerJob) :
    Nat → IndexerJob :=
  fun j => if j = id then f (store j) else store j

/-- Flag mutation of the shared unit of job `id`. -/
def updateFlags (store : Nat → IndexerJob) (id : Nat) (f : Flags → Flags) :
    Nat → IndexerJob :=
  updateJob store id (fun j => { j with unit := { j.unit with flags := f j.unit.flags } })

/-- `mProcessingJobs[job->id] = job`: map insert (no duplicate keys). -/
def insertProcessing (id : Nat) (l : List Nat) : List Nat :=
  if id ∈ l then l else l ++ [id]

/-- `Server::hasServer` (Server.cpp lines 2257-2264). -/
def hasServer (st : ServerState) : Bool :=
  if st.isJobServer then true
  else if st.noJobServer then false
  else st.serverConnection

/-- `Server::handleIndexerMessage` (Server.cpp lines 594-636).

`ipEmpty` is `conn->client()->peerName().isEmpty()` (true exactly for a
result from our own local worker); `projectFound` is whether
`mProjects.value(message.project())` finds the owning project.  The second
component is the result handed to the owning project via
`project->onJobFinished(indexData, job)`: `some id` when forwarded,
`none` when silently dropped. -/
def handleIndexerMessage (st : ServerState) (jobId : Nat) (ipEmpty : Bool)
    (projectFound : Bool) : ServerState × Option Nat :=
  if jobId ∈ st.processing then
    let st1 : ServerState :=
      { st with processing := st.processing.filter (· ≠ jobId),
                jobs := updateFlags st.jobs jobId (fun f =>
                  if ipEmpty then { f with runningLocal := false }
                  else { f with remote := false }) }
    let f := (st1.jobs jobId).unit.flags
    if f.completeLocal || f.completeRemote then
      (st1, none)
    else
      let st2 : ServerState :=
        if f.aborted then st1
        else { st1 with jobs := updateFlags st1.jobs jobId (fun g =>
                 if ipEmpty then { g with completeLocal := true }
                 else { g with completeRemote := true }) }
      if projectFound then (st2, some jobId) else (st2, none)
  else
    (st, none)

/-- The in-place compression of a job's preprocessed unit performed while
answering a `JobRequest` (Server.cpp lines 1536-1542): replace the blob by
its compression and set `PreprocessCompressed`. -/
def compressJob (compressFn : List Nat → List Nat) (j : IndexerJob) : IndexerJob :=
  { j with unit := { preprocessed := compressFn j.unit.preprocessed,
                     flags := { j.unit.flags with preprocessCompressed := true } } }

/-- The `pending` walk of `Server::handleJobRequestMessage` (Server.cpp
lines 1526-1560), threading the job store (compression mutates the shared
unit in place).  Arguments: `compressFn` models the external
`String::compress` of the rct library; `compressionRemote` is
`mOptions.options & CompressionRemote`; `n` is `message.numJobs()` minus
the number of jobs already appended.  Returns the mutated store, the ids
appended to `jobs`, the surviving `pending` queue, and `finished`.  The
C++ breaks with `finished = false` when the appended job makes
`jobs.size() == numJobs`, i.e. exactly when one more job was wanted
(`n = 1`); with `numJobs = 0` the comparison `size == 0` never holds after
an append, which the truncated `n - 1 = 0` reproduces. -/
def takeJobsWalk (compressFn : List Nat → List Nat) (compressionRemote : Bool)
    (store : Nat → IndexerJob) :
    List Nat → Nat → ((Nat → IndexerJob) × List Nat × List Nat × Bool)
  | [], _ => (store, [], [], true)
  | id :: rest, n =>
    let f := (store id).unit.flags
    if f.completeLocal || f.completeRemote then
      takeJobsWalk compressFn compressionRemote store rest n
    else if !f.fromRemote && (store id).unit.preprocessed ≠ [] then
      let store' :=
        if compressionRemote && !f.preprocessCompressed then
          updateJob store id (compressJob compressFn)
        else store
      if n = 1 then
        (store', [id], rest, false)
      else
        let r := takeJobsWalk compressFn compressionRemote store' rest (n - 1)
        (r.1, id :: r.2.1, r.2.2.1, r.2.2.2)
    else
      let r := takeJobsWalk compressFn compressionRemote store rest n
      (r.1, r.2.1, id :: r.2.2.1, r.2.2.2)

/-- `Server::handleJobRequestMessage` up to and including
`conn->send(JobResponseMessage(jobs, port, finished))` (Server.cpp lines
1520-1566): walks `pending`, then sends the response.  The taken jobs are
at this point held only by the `sendFinished`/`disconnected`/`error`
callbacks (`jobRequestSendFinished`, `jobRequestOnError` below).  Returns
the new state, the ids of the jobs sent, and `finished`. -/
def handleJobRequest (compressFn : List Nat → List Nat) (compressionRemote : Bool)
    (st : ServerState) (n : Nat) : ServerState × List Nat × Bool :=
  let r := takeJobsWalk compressFn compressionRemote st.jobs st.pending n
  ({ st with jobs := r.1, pending := r.2.2.1 }, r.2.1, r.2.2.2)

/-- The `conn->sendFinished()` callback installed by
`Server::handleJobRequestMessage` (Server.cpp lines 1567-1579): when
`finished`, clear `mAnnounced`; record every sent job in
`mProcessingJobs`, set `Remote`, clear `Rescheduled`, stamp
`started = now`.  (It also restarts the reschedule timer.) -/
def jobRequestSendFinished (st : ServerState) (taken : List Nat) (finished : Bool)
    (now : Nat) : ServerState :=
  let st := if finished then { st with announced := false } else st
  taken.foldl (fun acc id =>
    { acc with
        processing := insertProcessing id acc.processing,
        jobs := updateJob acc.jobs id (fun j =>
          { j with unit := { j.unit with flags :=
              { j.unit.flags with remote := true, rescheduled := false } },
                   started := now }) }) st

/-- The `onError` callback installed by `Server::handleJobRequestMessage`
for `conn->disconnected()` and `conn->error()` (Server.cpp lines
1581-1588): clear `Rescheduled` on every sent job and reinsert it into
`pending`. -/
def jobRequestOnError (st : ServerState) (taken : List Nat) : ServerState :=
  taken.foldl (fun acc id =>
    { acc with
        jobs := updateFlags acc.jobs id (fun f => { f with rescheduled := false }),
        pending := acc.pending ++ [id] }) st

/-- Lookup in the peer registry hash `mRemotes` (keyed by announced host
string). -/
def lookupRemote : List (String × RemoteRec) → String → Option RemoteRec
  | [], _ => none
  | p :: rest, h => if p.1 = h then some p.2 else lookupRemote rest h

/-- `Server::handleJobAnnouncementMessage` (Server.cpp lines 1615-1628).
`Remote *&remote = mRemotes[message.host()]` default-inserts a null slot;
if the slot was empty a fresh `Remote` is built (substituting the sender's
peer name for an empty host); otherwise the existing record is unlinked
from the intrusive list.  Either way the record is then linked at the
tail (most-recently-seen).  For a known host the record itself — host and
port fields included — is untouched. -/
def handleJobAnnouncement (st : ServerState) (peerName host : String) (port : Nat) :
    ServerState :=
  match lookupRemote st.remotes host with
  | none =>
    let h := if host = "" then peerName else host
    { st with remotes := st.remotes ++ [(host, ⟨h, port⟩)] }
  | some r =>
    { st with remotes := st.remotes.filter (fun p => p.1 ≠ host) ++ [(host, r)] }

/-- `Server::onConnectionDisconnected` (Server.cpp lines 376-384):
`mPendingJobRequests.remove(o)`. -/
def onConnectionDisconnected (st : ServerState) (conn : Nat) : ServerState :=
  { st with pendingJobRequests := st.pendingJobRequests.filter (fun p => p.1 ≠ conn) }

/-- The `mProcessingJobs` scan of `Server::onReschedule` (Server.cpp lines
1760-1791), threading the store.  Returns the mutated store, the
surviving `processing` entries, the ids pushed back onto `pending`, and
the `restartTimer` / `doWork` booleans.  Already-Complete entries are
erased; a job with `Remote` set, lacking `Rescheduled|RunningLocal`, whose
dispatch is at least `rescheduleTimeout` old, gets `Rescheduled` set and
is appended to `pending` while staying in `processing`; a still-young
remote job only requests a timer restart. -/
def rescheduleWalk (timeout now : Nat) (store : Nat → IndexerJob) :
    List Nat → ((Nat → IndexerJob) × List Nat × List Nat × Bool × Bool)
  | [] => (store, [], [], false, false)
  | id :: rest =>
    let f := (store id).unit.flags
    if f.completeLocal || f.completeRemote then
      rescheduleWalk timeout now store rest
    else if !f.rescheduled && !f.runningLocal && f.remote then
      if timeout ≤ now - (store id).started then
        let store' := updateFlags store id (fun g => { g with rescheduled := true })
        let r := rescheduleWalk timeout now store' rest
        (r.1, id :: r.2.1, id :: r.2.2.1, r.2.2.2.1, true)
      else
        let r := rescheduleWalk timeout now store rest
        (r.1, id :: r.2.1, r.2.2.1, true, r.2.2.2.2)
    else
      let r := rescheduleWalk timeout now store rest
      (r.1, id :: r.2.1, r.2.2.1, r.2.2.2.1, r.2.2.2.2)

/-- `Server::onReschedule` (Server.cpp lines 1760-1797) without the final
`WorkScope` tick.  Returns the new state, `restartTimer`, and `doWork`. -/
def onReschedule (st : ServerState) (now : Nat) : ServerState × Bool × Bool :=
  let r := rescheduleWalk st.rescheduleTimeout now st.jobs st.processing
  ({ st with jobs := r.1, processing := r.2.1, pending := st.pending ++ r.2.2.1 },
   r.2.2.2.1, r.2.2.2.2)

/-- Lookup in `mLocalJobs` (keyed by child process). -/
def lookupLocal : List (Nat × Nat × Nat) → Nat → Option (Nat × Nat)
  | [], _ => none
  | p :: rest, pid => if p.1 = pid then some p.2 else lookupLocal rest pid

/-- `Server::onLocalJobFinished` (Server.cpp lines 1864-1902) without the
final `WorkScope` tick.  `returnCode` is `process->returnCode()`,
`errorStringEmpty` is `process->errorString().isEmpty()`,
`projectLoadedOrSyncing` is whether `project(job->project)` exists and is
in state `Loaded` or `Syncing`.  The second component models the 500 ms
delayed `proj->onJobFinished(data, job)` registration with a synthetic
`IndexData`: `some jobId` when that timer is registered. -/
def onLocalJobFinished (st : ServerState) (pid : Nat) (returnCode : Int)
    (errorStringEmpty : Bool) (projectLoadedOrSyncing : Bool) :
    ServerState × Option Nat :=
  match lookupLocal st.localJobs pid with
  | none => (st, none)
  | some (jobId, _) =>
    let f := (st.jobs jobId).unit.flags
    let crashing := (!(f.completeLocal || f.completeRemote)) &&
      (returnCode ≠ 0 || !errorStringEmpty)
    let jobs' :=
      if crashing then
        updateFlags st.jobs jobId (fun g =>
          let g := if g.aborted then g else { g with crashed := true }
          { g with runningLocal := false })
      else st.jobs
    let notify := if crashing && projectLoadedOrSyncing then some jobId else none
    ({ st with jobs := jobs',
               processing := st.processing.filter (· ≠ jobId),
               localJobs := st.localJobs.filter (fun p => p.1 ≠ pid) },
     notify)

/-- The hard-coded retry delay for locally-crashed jobs
(Server.cpp line 1894). -/
def localCrashRetryDelayMs : Nat := 500

/-- State touched by `Server::connectToServer` and the connection
callbacks it installs (Server.cpp lines 1986-2035): the consecutive
failure counter `mConnectToServerFailures`, whether `mServerConnection`
exists, whether `mOptions.jobServer` names a server
(`jobServer.second != 0`), and whether the multicast socket exists. -/
structure ConnectSt where
  failures : Nat := 0
  serverConnection : Bool := false
  jobServerKnown : Bool := false
  multicast : Bool := false
  deriving Repr, DecidableEq

/-- `enum { ServerReconnectTimer = 5000 }` (Server.cpp line 1988). -/
def serverReconnectTimer : Nat := 5000

/-- `Server::connectToServer` (Server.cpp lines 1986-2035).  `dialOk`
models the boolean result of `mServerConnection->connectTcp(...)`.  The
second component is the delay (ms) the retry timer is restarted with,
when it is: every failure path runs
`mConnectToServerTimer.restart(ServerReconnectTimer * ++mConnectToServerFailures)`. -/
def connectToServer (dialOk : Bool) (s : ConnectSt) : ConnectSt × Option Nat :=
  if s.serverConnection then (s, none)
  else if !s.jobServerKnown then
    if s.multicast then
      ({ s with failures := s.failures + 1 },
       some (serverReconnectTimer * (s.failures + 1)))
    else (s, none)
  else if dialOk then
    ({ s with serverConnection := true }, none)
  else
    ({ s with failures := s.failures + 1 },
     some (serverReconnectTimer * (s.failures + 1)))

/-- The `mServerConnection->connected()` callback (Server.cpp lines
2013-2026): `mConnectToServerFailures = 0;` runs at the very top of the
callback (line 2014), before the `ClientMessage` send is attempted, so a
failed send tears the connection down and restarts the retry timer with
`ServerReconnectTimer * ++mConnectToServerFailures` computed from the
freshly reset counter, i.e. `5000 * 1`. -/
def onServerConnected (sendOk : Bool) (s : ConnectSt) : ConnectSt × Option Nat :=
  let s := { s with failures := 0 }
  if sendOk then (s, none)
  else
    ({ s with serverConnection := false, failures := s.failures + 1 },
     some (serverReconnectTimer * (s.failures + 1)))

/-- The `mServerConnection->disconnected()` callback (Server.cpp lines
2005-2012): drop the connection and restart the retry timer with the next
linear backoff. -/
def onServerDisconnected (s : ConnectSt) : ConnectSt × Option Nat :=
  ({ s with serverConnection := false, failures := s.failures + 1 },
   some (serverReconnectTimer * (s.failures + 1)))

/-- Σ of the outstanding requested counts in `mPendingJobRequests`. -/
def reqSum (st : ServerState) : Nat :=
  (st.pendingJobRequests.map (fun p => p.2)).sum

/-- The number of preprocess jobs `Server::work` moves from
`mPendingPreprocessJobs` into the thread pool (Server.cpp lines
2082-2090): `min(mPendingPreprocessJobs.size(), maxPendingPreprocessSize -
(backlog + busy + mPending.size()))`, clamped below at zero by the
`while (pending > 0)` guard.  A configuration without a thread pool
corresponds to `poolLoad = pendingPreprocessCount = 0`. -/
def drainCount (st : ServerState) : Nat :=
  (min (st.pendingPreprocessCount : Int)
    ((st.maxPendingPreprocessSize : Int) - ((st.poolLoad : Int) + st.pending.length))).toNat

/-- Modelled from the spec: `IndexerJob::launchProcess` (IndexerJob.cpp is
not among the provided sources).  Per the spec's job lifecycle and local
runner (C6), dispatching a job to a local child marks it running locally
(`RunningLocal`); `Server::work` then records the child in `mLocalJobs` in
both the success and the failure branch. -/
def launchProcess (j : IndexerJob) : IndexerJob :=
  { j with unit := { j.unit with flags := { j.unit.flags with runningLocal := true } } }

/-- The `pending` walk of `Server::work` (Server.cpp lines 2131-2169),
threading the state.  `pe` models `project(...)` existence for a project
root; `jobs` is the signed slot counter.  Complete jobs are erased; while
slots remain, jobs are recorded in `mProcessingJobs` (unless
`FromRemote`), stripped of `Rescheduled`, launched, and recorded in
`mLocalJobs`; once slots are gone, locally-owned jobs whose project still
exists are counted as announcable (jobs with a dead project are erased).
Returns (state, surviving pending queue, remaining slots,
announcables). -/
def workWalk (pe : String → Bool) (now : Nat) :
    ServerState → List Nat → Int → Nat → (ServerState × List Nat × Int × Nat)
  | st, [], jobs, ann => (st, [], jobs, ann)
  | st, id :: rest, jobs, ann =>
    let f := (st.jobs id).unit.flags
    if f.completeLocal || f.completeRemote then
      workWalk pe now st rest jobs ann
    else if 0 < jobs then
      let st :=
        if f.fromRemote then st
        else { st with processing := insertProcessing id st.processing }
      let st := { st with jobs := updateFlags st.jobs id (fun g => { g with rescheduled := false }) }
      let st := { st with jobs := updateJob st.jobs id launchProcess }
      let st := { st with localJobs := st.localJobs ++ [(st.nextPid, id, now)],
                          nextPid := st.nextPid + 1 }
      workWalk pe now st rest (jobs - 1) ann
    else if !f.fromRemote then
      if !pe (st.jobs id).project then
        workWalk pe now st rest jobs ann
      else
        let r := workWalk pe now st rest jobs (ann + 1)
        (r.1, id :: r.2.1, r.2.2.1, r.2.2.2)
    else
      let r := workWalk pe now st rest jobs ann
      (r.1, id :: r.2.1, r.2.2.1, r.2.2.2)

/-- One rotation of the peer linked list: the head (`mFirstRemote`) is
unlinked and relinked at the tail (Server.cpp lines 2199-2215; for a
singleton list `remote == mLastRemote` and nothing moves, which
re-appending the head reproduces). -/
def rotate1 {α : Type} : List α → List α
  | [] => []
  | x :: xs => xs ++ [x]

/-- The peer-fetch loop of `Server::work` (Server.cpp lines 2195-2238):
up to `remoteCount` attempts; each attempt takes the current head of the
linked list, rotates it to the tail, and dials it; the loop stops at the
first successful dial, returning the remote the `JobRequest` goes to. -/
def workRemotes (dial : RemoteRec → Bool) :
    Nat → List (String × RemoteRec) → (List (String × RemoteRec) × Option RemoteRec)
  | 0, l => (l, none)
  | _ + 1, [] => ([], none)
  | n + 1, r :: rest =>
    let l' := rest ++ [r]
    if dial r.2 then (l', some r.2) else workRemotes dial n l'

/-- The body of `Server::work` from the `jobs <= 0 && !hasServer()` early
return on (Server.cpp lines 2128-2239), parameterised by the slot count
already computed: the `pending` walk, the announcement branch, and the
peer-fetch loop. -/
def workAfterSlots (pe : String → Bool) (dial : RemoteRec → Bool) (now : Nat)
    (st : ServerState) (jobs : Int) : ServerState × WorkOut :=
  if jobs ≤ 0 && !hasServer st then (st, {}) else
  let w := workWalk pe now st st.pending jobs 0
  let st := { w.1 with pending := w.2.1 }
  let jobs := w.2.2.1
  let ann := w.2.2.2
  if !hasServer st then (st, {}) else
  let sent := !st.announced && 0 < ann
  let st := if sent then { st with announced := true } else st
  if jobs ≤ 0 then (st, { announceSent := sent }) else
  let rr := workRemotes dial st.remotes.length st.remotes
  let st := { st with remotes := rr.1 }
  match rr.2 with
  | none => (st, { announceSent := sent })
  | some r =>
    ({ st with pendingJobRequests := st.pendingJobRequests ++ [(st.nextConn, jobs.toNat)],
               nextConn := st.nextConn + 1 },
     { announceSent := sent, jobRequest := some (r.host, jobs.toNat) })

/-- `Server::work` (Server.cpp lines 2078-2239).  `pe` models project
existence, `dial` the boolean result of `conn->connectTcp(...)`, `now`
the monotonic clock: drain the preprocess pool, compute the slot count
`jobs` (an `int` that can go negative), clamp it under `NoLocalCompiles`,
and run the rest of the procedure. -/
def work (pe : String → Bool) (dial : RemoteRec → Bool) (now : Nat)
    (st : ServerState) : ServerState × WorkOut :=
  let moved := drainCount st
  let st := { st with poolLoad := st.poolLoad + moved,
                      pendingPreprocessCount := st.pendingPreprocessCount - moved }
  let jobs : Int := (st.jobCount : Int) - (st.poolLoad : Int)
    - (st.localJobs.length : Int) - (reqSum st : Int)
  let jobs := if st.noLocalCompiles then min jobs 0 else jobs
  workAfterSlots pe dial now st jobs

/-- The slot-accounting quantity of spec property P3 at a `work` exit:
`|local_jobs| + (busy + backlogged preprocess) + Σ pending_job_requests`. -/
def slotSum (st : ServerState) : Nat :=
  st.localJobs.length + st.poolLoad + reqSum st

/-- The selection sequence produced by `k` consecutive successful
`JobRequest` dispatches of the work loop's peer-fetch step: each dispatch
takes the current head and rotates the list by one. -/
def roundRobin {α : Type} : Nat → List α → List α
  | 0, _ => []
  | _ + 1, [] => []
  | k + 1, x :: xs => x :: roundRobin k (xs ++ [x])

/-- Main-thread events of the scheduler, each carrying the data its
handler reads from the environment (message payloads, oracle booleans,
the clock, and the `pe`/`dial` oracles of any `work` run it triggers).
`respSendFinished`/`respSendError` are the asynchronous callbacks
installed by `handleJobRequestMessage` for a previously sent
`JobResponse`. -/
inductive Ev where
  | workTick (pe : String → Bool) (dial : RemoteRec → Bool) (now : Nat)
  | indexer (jobId : Nat) (ipEmpty projectFound : Bool)
      (pe : String → Bool) (dial : RemoteRec → Bool) (now : Nat)
  | jobRequest (compressFn : List Nat → List Nat) (n : Nat)
  | respSendFinished (taken : List Nat) (finished : Bool) (now : Nat)
  | respSendError (taken : List Nat)
  | jobResponse (conn : Nat) (host : String) (newJobs : List (Nat × IndexerJob))
      (finished : Bool) (pe : String → Bool) (dial : RemoteRec → Bool) (now : Nat)
  | clientConnected (pe : String → Bool) (dial : RemoteRec → Bool) (now : Nat)
  | reschedule (pe : String → Bool) (dial : RemoteRec → Bool) (now : Nat)
  | localFinished (pid : Nat) (returnCode : Int) (errorStringEmpty projectLoadedOrSyncing : Bool)
      (pe : String → Bool) (dial : RemoteRec → Bool) (now : Nat)
  | announcementMsg (peerName host : String) (port : Nat)
      (pe : String → Bool) (dial : RemoteRec → Bool) (now : Nat)
  | connDisconnected (conn : Nat)

/-- Run `Server::work` and report whether its announce branch sent an
announcement. -/
def runWork (pe : String → Bool) (dial : RemoteRec → Bool) (now : Nat)
    (st : ServerState) : ServerState × Bool :=
  let r := work pe dial now st
  (r.1, r.2.announceSent)

/-- One `addJob` of `Server::handleJobResponseMessage` (Server.cpp lines
1600-1605): install the received job (stamped `FromRemote`) in the store,
push it onto `pending`, and run the `work` tick `addJob`'s `WorkScope`
performs, accumulating whether any announcement was sent. -/
def jobResponseStep (pe : String → Bool) (dial : RemoteRec → Bool) (now : Nat)
    (acc : ServerState × Bool) (jb : Nat × IndexerJob) : ServerState × Bool :=
  let st := { acc.1 with
    jobs := updateJob acc.1.jobs jb.1 (fun _ =>
      { jb.2 with unit := { jb.2.unit with flags := { jb.2.unit.flags with fromRemote := true } } }),
    pending := acc.1.pending ++ [jb.1] }
  let w := runWork pe dial now st
  (w.1, acc.2 || w.2)

/-- One main-thread event step.  Handlers holding a `WorkScope`
(`handleIndexerMessage`, `handleJobAnnouncementMessage`,
`handleClientConnectedMessage`, `addJob` as invoked per received job by
`handleJobResponseMessage`, `onLocalJobFinished`, and `onReschedule` when
its walk re-pended a job) run `work` before returning;
`handleJobRequestMessage` and the send callbacks do not.  The boolean
reports whether an announcement was sent during the event. -/
def step : ServerState → Ev → ServerState × Bool
  | st, .workTick pe dial now => runWork pe dial now st
  | st, .indexer jobId ipEmpty pf pe dial now =>
    runWork pe dial now (handleIndexerMessage st jobId ipEmpty pf).1
  | st, .jobRequest compressFn n =>
    ((handleJobRequest compressFn false st n).1, false)
  | st, .respSendFinished taken fin now => (jobRequestSendFinished st taken fin now, false)
  | st, .respSendError taken => (jobRequestOnError st taken, false)
  | st, .jobResponse conn host newJobs fin pe dial now =>
    let st := { st with pendingJobRequests := st.pendingJobRequests.filter (fun p => p.1 ≠ conn) }
    let r := newJobs.foldl (jobResponseStep pe dial now) (st, false)
    if fin then
      ({ r.1 with remotes := r.1.remotes.filter (fun p => p.1 ≠ host) }, r.2)
    else r
  | st, .clientConnected pe dial now => runWork pe dial now { st with announced := false }
  | st, .reschedule pe dial now =>
    let r := onReschedule st now
    if r.2.2 then runWork pe dial now r.1 else (r.1, false)
  | st, .localFinished pid ret errEmpty projLoaded pe dial now =>
    runWork pe dial now (onLocalJobFinished st pid ret errEmpty projLoaded).1
  | st, .announcementMsg peerName host port pe dial now =>
    runWork pe dial now (handleJobAnnouncement st peerName host port)
  | st, .connDisconnected conn => (onConnectionDisconnected st conn, false)

/-- The two occurrences that clear `mAnnounced`: the `sendFinished`
callback of a `JobResponse` that reported `finished = true` (Server.cpp
lines 1567-1569) and a new client joining the farm (Server.cpp line
1663). -/
def isClearing : Ev → Bool
  | .respSendFinished _ true _ => true
  | .clientConnected _ _ _ => true
  | _ => false

/-- Number of announcements sent along a trace of events. -/
def sendCount : ServerState → List Ev → Nat
  | _, [] => 0
  | st, e :: es =>
    (if (step st e).2 then 1 else 0) + sendCount (step st e).1 es

/-- The reschedule condition of `Server::onReschedule` on a single job:
not yet complete, `Remote` set, `Rescheduled|RunningLocal` clear, and the
dispatch at least `timeout` old. -/
def rescheduleDue (j : IndexerJob) (timeout now : Nat) : Bool :=
  !(j.unit.flags.completeLocal || j.unit.flags.completeRemote) &&
    j.unit.flags.remote && !j.unit.flags.rescheduled && !j.unit.flags.runningLocal &&
    decide (timeout ≤ now - j.started)

/-- An eligible locally-owned job (used by concrete scenario states). -/
def eligJob : IndexerJob :=
  { project := "proj", unit := { preprocessed := [1], flags := {} } }

/-- Scenario state for the IndexerMessage claims: job 5 is dispatched and
tracked in `processing`. -/
def stIdx : ServerState :=
  { jobs := fun _ => eligJob, processing := [5] }

/-- Scenario state for the cancellation claims: job 7 is `Aborted`, still
tracked in `processing`, and its local child is process 1 in
`local_jobs`. -/
def stAborted : ServerState :=
  { jobs := fun _ =>
      { project := "proj", unit := { preprocessed := [1], flags := { aborted := true } } },
    processing := [7],
    localJobs := [(1, 7, 0)] }

/-- Scenario state for the reschedule claim: job 3 is in `processing`
with `Remote` set and `CompleteLocal` already set (the race the code
comments on: it completed while being sent to a remote). -/
def stResched : ServerState :=
  { jobs := fun _ =>
      { project := "proj",
        unit := { preprocessed := [1],
                  flags := { remote := true, completeLocal := true } },
        started := 0 },
    processing := [3],
    rescheduleTimeout := 10 }

/-- Scenario state for the JobRequest claims: one eligible pending job. -/
def stPend : ServerState :=
  { jobs := fun _ => eligJob, pending := [0], jobCount := 1 }

/-- Scenario state for the slot-accounting claim: `job_count = 1` but the
preprocess drain is bounded by `max_pending_preprocess = 5` and three
compile commands are waiting. -/
def stDrain : ServerState :=
  { jobs := fun _ => eligJob, jobCount := 1, maxPendingPreprocessSize := 5,
    pendingPreprocessCount := 3, noJobServer := true }

/-- Scenario state for the announce-gating claim: an announcable pending
job on the job-server with no local slots. -/
def stAnn : ServerState :=
  { jobs := fun _ => eligJob, pending := [0], jobCount := 0, isJobServer := true }

/-- Scenario peer registry with two known peers. -/
def twoRemotes : List (String × RemoteRec) :=
  [("a", ⟨"a", 1⟩), ("b", ⟨"b", 2⟩)]

/-- Scenario state for the announcement frame claim. -/
def stRemotes : ServerState :=
  { jobs := fun _ => eligJob, remotes := twoRemotes }

/-- Scenario state for the reschedule witness: job 4 was shipped to a
peer (Remote, not rescheduled, not running locally, not complete) and the
peer has stalled past the timeout. -/
def stDue : ServerState :=
  { jobs := fun _ =>
      { project := "proj",
        unit := { preprocessed := [1], flags := { remote := true } },
        started := 0 },
    processing := [4],
    rescheduleTimeout := 10 }

/-- Occurrence count of a peer entry in a selection sequence. -/
def countOcc (p : String × RemoteRec) : List (String × RemoteRec) → Nat
  | [] => 0
  | x :: xs => (if x = p then 1 else 0) + countOcc p xs

/-! ## Theorems -/

/-- C9: every failure path restarts the retry timer at 5000 ms times the
number of consecutive failures so far: the dial and multicast failure
paths of `connectToServer` and the disconnect callback increment the
counter and schedule `5000 * newCount`; the connected callback resets the
counter to zero at entry (Server.cpp line 2014), so a subsequent failing
`ClientMessage` send counts as the first failure of a fresh run and
schedules `5000 * 1`, and a fully successful connect leaves the counter
at zero. -/
theorem connect_backoff_linear :
    (∀ (dialOk : Bool) (s : ConnectSt) (t : Nat),
        (connectToServer dialOk s).2 = some t →
        (connectToServer dialOk s).1.failures = s.failures + 1 ∧
        t = serverReconnectTimer * (s.failures + 1)) ∧
    (∀ (s : ConnectSt) (t : Nat),
        (onServerDisconnected s).2 = some t →
        (onServerDisconnected s).1.failures = s.failures + 1 ∧
        t = serverReconnectTimer * (s.failures + 1)) ∧
    (∀ (s : ConnectSt) (t : Nat),
        (onServerConnected false s).2 = some t →
        (onServerConnected false s).1.failures = 1 ∧
        t = serverReconnectTimer * 1) ∧
    (∀ s : ConnectSt, (onServerConnected true s).1.failures = 0) := by
  refine ⟨?_, ?_, ?_, ?_⟩
  · intro dialOk s t h
    unfold connectToServer at h ⊢
    split at h
    · simp at h
    · split at h
      · split at h
        · simp only [Option.some.injEq] at h
          exact ⟨by simp_all, h.symm⟩
        · simp at h
      · split at h
        · simp at h
        · simp only [Option.some.injEq] at h
          exact ⟨by simp_all, h.symm⟩
  · intro s t h
    unfold onServerDisconnected at h ⊢
    simp only [Option.some.injEq] at h
    simp [← h]
  · intro s t h
    unfold onServerConnected at h ⊢
    simp only [Bool.false_eq_true, if_false, Option.some.injEq] at h ⊢
    simp [← h]
  · intro s
    simp [onServerConnected]

/-- Witness for C9 at concrete states: after two consecutive failures a
failing dial schedules the retry 15000 ms out with the counter at 3; a
connect whose `ClientMessage` send fails schedules 5000 ms with the
counter reset-then-bumped to 1; a fully successful connect leaves the
counter at zero. -/
theorem connect_backoff_linear_witness :
    ((connectToServer false ⟨2, false, true, false⟩).2 = some 15000 ∧
      ((connectToServer false ⟨2, false, true, false⟩).1.failures = 2 + 1 ∧
        15000 = serverReconnectTimer * (2 + 1))) ∧
    ((onServerConnected false ⟨2, true, true, false⟩).2 = some 5000 ∧
      ((onServerConnected false ⟨2, true, true, false⟩).1.failures = 1 ∧
        5000 = serverReconnectTimer * 1)) ∧
    (onServerConnected true ⟨3, true, true, false⟩).1.failures = 0 :=
  ⟨⟨by decide, connect_backoff_linear.1 false ⟨2, false, true, false⟩ 15000 (by decide)⟩,
   ⟨by decide, connect_backoff_linear.2.2.1 ⟨2, true, true, false⟩ 5000 (by decide)⟩,
   connect_backoff_linear.2.2.2 ⟨3, true, true, false⟩⟩

theorem lookupRemote_cons (p : String × RemoteRec) (l : List (String × RemoteRec))
    (k : String) :
    lookupRemote (p :: l) k = if p.1 = k then some p.2 else lookupRemote l k := rfl

theorem filterNe_cons_eq (p : String × RemoteRec) (l : List (String × RemoteRec))
    (host : String) (hp : p.1 = host) :
    (p :: l).filter (fun q => q.1 ≠ host) = l.filter (fun q => q.1 ≠ host) := by
  simp [List.filter_cons, hp]

theorem filterNe_cons_ne (p : String × RemoteRec) (l : List (String × RemoteRec))
    (host : String) (hp : p.1 ≠ host) :
    (p :: l).filter (fun q => q.1 ≠ host) = p :: l.filter (fun q => q.1 ≠ host) := by
  simp [List.filter_cons, hp]

theorem lookupRemote_filterNe_append (l : List (String × RemoteRec)) (host : String)
    (r : RemoteRec) :
    lookupRemote (l.filter (fun p => p.1 ≠ host) ++ [(host, r)]) host = some r := by
  induction l with
  | nil => simp [lookupRemote]
  | cons p rest ih =>
    rcases eq_or_ne p.1 host with hp | hp
    · rw [filterNe_cons_eq p rest host hp]
      exact ih
    · rw [filterNe_cons_ne p rest host hp, List.cons_append, lookupRemote_cons, if_neg hp]
      exact ih

theorem lookupRemote_filterNe_append_ne (l : List (String × RemoteRec)) (host k : String)
    (r : RemoteRec) (hk : k ≠ host) :
    lookupRemote (l.filter (fun p => p.1 ≠ host) ++ [(host, r)]) k = lookupRemote l k := by
  induction l with
  | nil =>
    rw [List.filter_nil, List.nil_append, lookupRemote_cons, if_neg (Ne.symm hk)]
  | cons p rest ih =>
    rcases eq_or_ne p.1 host with hp | hp
    · rw [filterNe_cons_eq p rest host hp, ih, lookupRemote_cons,
          if_neg (by rw [hp]; exact Ne.symm hk)]
    · rw [filterNe_cons_ne p rest host hp, List.cons_append, lookupRemote_cons,
          lookupRemote_cons]
      by_cases hpk : p.1 = k
      · rw [if_pos hpk, if_pos hpk]
      · rw [if_neg hpk, if_neg hpk]
        exact ih

/-- C10: when a `JobAnnouncement` names an already-known host, the handler
only moves that host to the most-recently-seen end of the round-robin
list: the stored record (host and port fields) is returned unchanged by
every registry lookup — in particular the port carried by the new
announcement is ignored — every other key's lookup is unchanged, the
relative order of the other entries is unchanged, and the rest of the
server state is untouched. -/
theorem announcement_known_host_frame (st : ServerState) (peerName host : String)
    (port : Nat) (r : RemoteRec)
    (hfound : lookupRemote st.remotes host = some r) :
    lookupRemote (handleJobAnnouncement st peerName host port).remotes host = some r ∧
    (∀ k, k ≠ host →
      lookupRemote (handleJobAnnouncement st peerName host port).remotes k
        = lookupRemote st.remotes k) ∧
    (handleJobAnnouncement st peerName host port).remotes.filter (fun p => p.1 ≠ host)
      = st.remotes.filter (fun p => p.1 ≠ host) ∧
    (∃ l, (handleJobAnnouncement st peerName host port).remotes = l ++ [(host, r)]) ∧
    (handleJobAnnouncement st peerName host port).pending = st.pending ∧
    (handleJobAnnouncement st peerName host port).processing = st.processing ∧
    (handleJobAnnouncement st peerName host port).localJobs = st.localJobs ∧
    (handleJobAnnouncement st peerName host port).jobs = st.jobs ∧
    (handleJobAnnouncement st peerName host port).announced = st.announced := by
  unfold handleJobAnnouncement
  rw [hfound]
  refine ⟨lookupRemote_filterNe_append _ _ _,
          fun k hk => lookupRemote_filterNe_append_ne _ _ _ _ hk, ?_, ⟨_, rfl⟩,
          rfl, rfl, rfl, rfl, rfl⟩
  simp [List.filter_append, List.filter_filter]

/-- Witness for C10: the registry knows hosts `a` (port 1) and `b`
(port 2); a new announcement for `a` carrying port 99 moves `a` to the
tail and keeps the stored port 1. -/
theorem announcement_known_host_frame_witness :
    lookupRemote (handleJobAnnouncement stRemotes "peer" "a" 99).remotes "a"
      = some ⟨"a", 1⟩ ∧
    (∀ k, k ≠ "a" →
      lookupRemote (handleJobAnnouncement stRemotes "peer" "a" 99).remotes k
        = lookupRemote stRemotes.remotes k) ∧
    (handleJobAnnouncement stRemotes "peer" "a" 99).remotes.filter (fun p => p.1 ≠ "a")
      = stRemotes.remotes.filter (fun p => p.1 ≠ "a") ∧
    (∃ l, (handleJobAnnouncement stRemotes "peer" "a" 99).remotes = l ++ [("a", ⟨"a", 1⟩)]) ∧
    (handleJobAnnouncement stRemotes "peer" "a" 99).pending = stRemotes.pending ∧
    (handleJobAnnouncement stRemotes "peer" "a" 99).processing = stRemotes.processing ∧
    (handleJobAnnouncement stRemotes "peer" "a" 99).localJobs = stRemotes.localJobs ∧
    (handleJobAnnouncement stRemotes "peer" "a" 99).jobs = stRemotes.jobs ∧
    (handleJobAnnouncement stRemotes "peer" "a" 99).announced = stRemotes.announced :=
  announcement_known_host_frame stRemotes "peer" "a" 99 ⟨"a", 1⟩ (by decide)

theorem updateJob_apply (store : Nat → IndexerJob) (id : Nat) (f : IndexerJob → IndexerJob) :
    updateJob store id f id = f (store id) := by
  simp [updateJob]

theorem updateJob_apply_ne (store : Nat → IndexerJob) (id j : Nat) (f : IndexerJob → IndexerJob)
    (h : j ≠ id) : updateJob store id f j = store j := by
  simp [updateJob, h]

theorem updateFlags_apply (store : Nat → IndexerJob) (id : Nat) (f : Flags → Flags) :
    updateFlags store id f id
      = { store id with unit := { (store id).unit with flags := f (store id).unit.flags } } := by
  simp [updateFlags, updateJob]

theorem updateFlags_apply_ne (store : Nat → IndexerJob) (id j : Nat) (f : Flags → Flags)
    (h : j ≠ id) : updateFlags store id f j = store j := by
  simp [updateFlags, updateJob, h]

theorem handleIndexerMessage_processing (st : ServerState) (id : Nat) (ip pf : Bool) :
    (handleIndexerMessage st id ip pf).1.processing =
      if id ∈ st.processing then st.processing.filter (· ≠ id) else st.processing := by
  by_cases h : id ∈ st.processing
  · cases hip : ip <;> cases hpf : pf <;>
      by_cases hcl : (st.jobs id).unit.flags.completeLocal = true <;>
      by_cases hcr : (st.jobs id).unit.flags.completeRemote = true <;>
      by_cases hab : (st.jobs id).unit.flags.aborted = true <;>
      simp_all [handleIndexerMessage, updateFlags_apply]
  · simp [handleIndexerMessage, h]

theorem handleIndexerMessage_snd (st : ServerState) (id : Nat) (ip pf : Bool) :
    (handleIndexerMessage st id ip pf).2 =
      if id ∈ st.processing ∧ (st.jobs id).unit.flags.complete = false ∧ pf = true
      then some id else none := by
  by_cases h : id ∈ st.processing
  · cases hip : ip <;> cases hpf : pf <;>
      by_cases hcl : (st.jobs id).unit.flags.completeLocal = true <;>
      by_cases hcr : (st.jobs id).unit.flags.completeRemote = true <;>
      by_cases hab : (st.jobs id).unit.flags.aborted = true <;>
      simp_all [handleIndexerMessage, updateFlags_apply, Flags.complete]
  · simp [handleIndexerMessage, h]

/-- C1: the `IndexerMessage` handler removes the job id from `processing`
whenever present; a message whose id is absent leaves the state unchanged
and forwards nothing; a message for a unit already carrying a Complete
flag forwards nothing; a forwarded result certifies the id was tracked,
not yet complete, and the project was found; and a second message for the
same id after any first one is always dropped, so the owning project's
`onJobFinished` sees at most one replica's result per job id. -/
theorem indexer_first_result_wins (st : ServerState) (jobId : Nat) (ipEmpty projectFound : Bool) :
    jobId ∉ (handleIndexerMessage st jobId ipEmpty projectFound).1.processing ∧
    (jobId ∉ st.processing → handleIndexerMessage st jobId ipEmpty projectFound = (st, none)) ∧
    ((st.jobs jobId).unit.flags.complete = true →
      (handleIndexerMessage st jobId ipEmpty projectFound).2 = none) ∧
    ((handleIndexerMessage st jobId ipEmpty projectFound).2 = some jobId →
      jobId ∈ st.processing ∧ (st.jobs jobId).unit.flags.complete = false ∧
        projectFound = true) ∧
    (∀ ip2 pf2,
      (handleIndexerMessage (handleIndexerMessage st jobId ipEmpty projectFound).1
        jobId ip2 pf2).2 = none) := by
  have hmem : jobId ∉ (handleIndexerMessage st jobId ipEmpty projectFound).1.processing := by
    rw [handleIndexerMessage_processing]
    split
    · simp
    · assumption
  refine ⟨hmem, ?_, ?_, ?_, ?_⟩
  · intro h
    unfold handleIndexerMessage
    rw [if_neg h]
  · intro h
    rw [handleIndexerMessage_snd]
    simp [h]
  · intro h
    rw [handleIndexerMessage_snd] at h
    split at h
    · simp_all
    · simp at h
  · intro ip2 pf2
    rw [handleIndexerMessage_snd]
    simp [hmem]

/-- Witness for C1 on a concrete state: job 5 is in `processing` and not
complete, so the first message forwards it; the id is then gone from
`processing` and a second message for id 5 is dropped. -/
theorem indexer_first_result_wins_witness :
    5 ∉ (handleIndexerMessage stIdx 5 true true).1.processing ∧
    (5 ∈ stIdx.processing ∧ (stIdx.jobs 5).unit.flags.complete = false ∧ true = true) ∧
    (handleIndexerMessage (handleIndexerMessage stIdx 5 true true).1 5 false true).2 = none ∧
    handleIndexerMessage stIdx 6 true true = (stIdx, none) :=
  ⟨(indexer_first_result_wins stIdx 5 true true).1,
   (indexer_first_result_wins stIdx 5 true true).2.2.2.1 (by decide),
   (indexer_first_result_wins stIdx 5 true true).2.2.2.2 false true,
   (indexer_first_result_wins stIdx 6 true true).2.1 (by decide)⟩

/-- Counterexample to C3 as stated: job 7 is `Aborted` and in
`processing`; an arriving `IndexerMessage` still hands `(data, job)` to
the owning project, and a crashing local child still schedules the 500 ms
delayed synthetic notification — being `Aborted` only suppresses the
`Complete` and `Crashed` flag promotions, not the forwarding. -/
theorem aborted_still_forwarded_counterexample :
    (stAborted.jobs 7).unit.flags.aborted = true ∧
    (handleIndexerMessage stAborted 7 true true).2 = some 7 ∧
    ((handleIndexerMessage stAborted 7 true true).1.jobs 7).unit.flags.complete = false ∧
    (onLocalJobFinished stAborted 1 1 true true).2 = some 7 ∧
    ((onLocalJobFinished stAborted 1 1 true true).1.jobs 7).unit.flags.crashed = false := by
  decide

/-- C3 as amended: on an `Aborted` job, the `IndexerMessage` handler
leaves the `Complete` flags untouched but still forwards the result to
the owning project (when the id is tracked, not yet complete, and the
project is found); a crashing local child leaves `Crashed` untouched but
still schedules the 500 ms delayed synthetic-empty-IndexData notification
(when the unit is not yet complete and the owning project is loaded or
syncing). -/
theorem aborted_suppresses_flags_not_forwarding (st : ServerState) (id pid : Nat)
    (ip pf : Bool) (ret : Int) (errEmpty projLoaded : Bool) (t : Nat)
    (hab : (st.jobs id).unit.flags.aborted = true) :
    (((handleIndexerMessage st id ip pf).1.jobs id).unit.flags.completeLocal
        = (st.jobs id).unit.flags.completeLocal ∧
      ((handleIndexerMessage st id ip pf).1.jobs id).unit.flags.completeRemote
        = (st.jobs id).unit.flags.completeRemote) ∧
    (id ∈ st.processing → (st.jobs id).unit.flags.complete = false → pf = true →
      (handleIndexerMessage st id ip pf).2 = some id) ∧
    (lookupLocal st.localJobs pid = some (id, t) →
      ((onLocalJobFinished st pid ret errEmpty projLoaded).1.jobs id).unit.flags.crashed
          = (st.jobs id).unit.flags.crashed ∧
      ((st.jobs id).unit.flags.complete = false → (ret ≠ 0 ∨ errEmpty = false) →
        projLoaded = true →
        (onLocalJobFinished st pid ret errEmpty projLoaded).2 = some id)) := by
  refine ⟨?_, ?_, ?_⟩
  · by_cases h : id ∈ st.processing
    · cases ip <;> cases pf <;>
        by_cases hcl : (st.jobs id).unit.flags.completeLocal = true <;>
        by_cases hcr : (st.jobs id).unit.flags.completeRemote = true <;>
        simp_all [handleIndexerMessage, updateFlags_apply]
    · simp [handleIndexerMessage, h]
  · intro hm hc hpf
    rw [handleIndexerMessage_snd]
    simp [hm, hc, hpf]
  · intro hl
    constructor
    · by_cases hcr2 : ((st.jobs id).unit.flags.completeLocal = false ∧
          (st.jobs id).unit.flags.completeRemote = false) ∧ (¬ret = 0 ∨ errEmpty = false)
      · simp [onLocalJobFinished, hl, hcr2, updateFlags_apply, hab]
      · simp [onLocalJobFinished, hl, hcr2]
    · intro hc hret hproj
      have hc' : (st.jobs id).unit.flags.completeLocal = false ∧
          (st.jobs id).unit.flags.completeRemote = false := by
        simpa [Flags.complete] using hc
      have hret' : ¬ret = 0 ∨ errEmpty = false := hret
      simp [onLocalJobFinished, hl, hc'.1, hc'.2, hret', hproj]

/-- Witness for the amended C3 at the concrete `Aborted` scenario
state. -/
theorem aborted_suppresses_flags_not_forwarding_witness :
    ((((handleIndexerMessage stAborted 7 true true).1.jobs 7).unit.flags.completeLocal
        = (stAborted.jobs 7).unit.flags.completeLocal ∧
      ((handleIndexerMessage stAborted 7 true true).1.jobs 7).unit.flags.completeRemote
        = (stAborted.jobs 7).unit.flags.completeRemote) ∧
     (handleIndexerMessage stAborted 7 true true).2 = some 7 ∧
     (((onLocalJobFinished stAborted 1 1 true true).1.jobs 7).unit.flags.crashed
        = (stAborted.jobs 7).unit.flags.crashed ∧
      (onLocalJobFinished stAborted 1 1 true true).2 = some 7)) := by
  have h := aborted_suppresses_flags_not_forwarding stAborted 7 1 true true 1 true true 0
    (by decide)
  refine ⟨h.1, h.2.1 (by decide) (by decide) rfl, ?_⟩
  have h3 := h.2.2 (by decide)
  exact ⟨h3.1, h3.2 (by decide) (by norm_num) rfl⟩

theorem rescheduleWalk_preserves_resc (t n id : Nat) :
    ∀ (l : List Nat) (store : Nat → IndexerJob),
      (store id).unit.flags.rescheduled = true →
      ((rescheduleWalk t n store l).1 id).unit.flags.rescheduled = true := by
  intro l
  induction l with
  | nil => intro store h; simpa [rescheduleWalk] using h
  | cons p rest ih =>
    intro store h
    unfold rescheduleWalk
    by_cases h1 : ((store p).unit.flags.completeLocal
        || (store p).unit.flags.completeRemote) = true
    · simp only [h1, if_true]
      exact ih store h
    · simp only [h1, Bool.false_eq_true, if_false]
      by_cases h2 : (!(store p).unit.flags.rescheduled
          && !(store p).unit.flags.runningLocal && (store p).unit.flags.remote) = true
      · simp only [h2, if_true]
        by_cases h3 : t ≤ n - (store p).started
        · rw [if_pos h3]
          apply ih
          by_cases hpid : id = p
          · subst hpid
            simp [updateFlags_apply]
          · rw [updateFlags_apply_ne _ _ _ _ hpid]
            exact h
        · rw [if_neg h3]
          exact ih store h
      · simp only [h2, Bool.false_eq_true, if_false]
        exact ih store h

theorem rescheduleWalk_due (t n id : Nat) :
    ∀ (l : List Nat) (store : Nat → IndexerJob),
      id ∈ l → rescheduleDue (store id) t n = true →
      id ∈ (rescheduleWalk t n store l).2.1 ∧
      id ∈ (rescheduleWalk t n store l).2.2.1 ∧
      ((rescheduleWalk t n store l).1 id).unit.flags.rescheduled = true := by
  intro l
  induction l with
  | nil => intro store h; simp at h
  | cons p rest ih =>
    intro store hmem hdue
    by_cases hpid : id = p
    · subst hpid
      have hd := hdue
      simp only [rescheduleDue, Bool.and_eq_true, Bool.not_eq_true',
        Bool.or_eq_false_iff, decide_eq_true_eq] at hd
      obtain ⟨⟨⟨⟨⟨hcl, hcr⟩, hrem⟩, hresc⟩, hrun⟩, htime⟩ := hd
      unfold rescheduleWalk
      simp only [hcl, hcr, hrem, hresc, hrun, Bool.or_self, Bool.false_eq_true,
        if_false, Bool.not_false, Bool.and_self, Bool.true_and, Bool.and_true, if_true]
      rw [if_pos htime]
      refine ⟨List.mem_cons_self _ _, List.mem_cons_self _ _, ?_⟩
      apply rescheduleWalk_preserves_resc
      simp [updateFlags_apply]
    · have hrest : id ∈ rest := by
        rcases List.mem_cons.mp hmem with h | h
        · exact absurd h hpid
        · exact h
      unfold rescheduleWalk
      by_cases h1 : ((store p).unit.flags.completeLocal
          || (store p).unit.flags.completeRemote) = true
      · simp only [h1, if_true]
        exact ih store hrest hdue
      · simp only [h1, Bool.false_eq_true, if_false]
        by_cases h2 : (!(store p).unit.flags.rescheduled
            && !(store p).unit.flags.runningLocal && (store p).unit.flags.remote) = true
        · simp only [h2, if_true]
          by_cases h3 : t ≤ n - (store p).started
          · rw [if_pos h3]
            have hdue' : rescheduleDue
                ((updateFlags store p (fun g => { g with rescheduled := true })) id) t n
                = true := by
              rw [updateFlags_apply_ne _ _ _ _ hpid]
              exact hdue
            have := ih _ hrest hdue'
            exact ⟨List.mem_cons_of_mem _ this.1, List.mem_cons_of_mem _ this.2.1,
              this.2.2⟩
          · rw [if_neg h3]
            have := ih store hrest hdue
            exact ⟨List.mem_cons_of_mem _ this.1, this.2.1, this.2.2⟩
        · simp only [h2, Bool.false_eq_true, if_false]
          have := ih store hrest hdue
          exact ⟨List.mem_cons_of_mem _ this.1, this.2.1, this.2.2⟩

theorem rescheduleWalk_not_due (t n id : Nat) :
    ∀ (l : List Nat) (store : Nat → IndexerJob),
      rescheduleDue (store id) t n = false →
      id ∉ (rescheduleWalk t n store l).2.2.1 ∧
      (rescheduleWalk t n store l).1 id = store id := by
  intro l
  induction l with
  | nil => intro store _; simp [rescheduleWalk]
  | cons p rest ih =>
    intro store hdue
    unfold rescheduleWalk
    by_cases h1 : ((store p).unit.flags.completeLocal
        || (store p).unit.flags.completeRemote) = true
    · simp only [h1, if_true]
      exact ih store hdue
    · simp only [h1, Bool.false_eq_true, if_false]
      by_cases h2 : (!(store p).unit.flags.rescheduled
          && !(store p).unit.flags.runningLocal && (store p).unit.flags.remote) = true
      · simp only [h2, if_true]
        by_cases h3 : t ≤ n - (store p).started
        · rw [if_pos h3]
          by_cases hpid : id = p
          · subst hpid
            exfalso
            simp only [Bool.and_eq_true, Bool.not_eq_true'] at h2
            simp only [Bool.or_eq_true, not_or, Bool.not_eq_true] at h1
            simp [rescheduleDue, h2.1.1, h2.1.2, h2.2, h3, h1.1, h1.2] at hdue
          · have hdue' : rescheduleDue
                ((updateFlags store p (fun g => { g with rescheduled := true })) id) t n
                = false := by
              rw [updateFlags_apply_ne _ _ _ _ hpid]
              exact hdue
            have := ih _ hdue'
            refine ⟨?_, ?_⟩
            · intro hc
              rcases List.mem_cons.mp hc with hc | hc
              · exact hpid hc
              · exact this.1 hc
            · rw [this.2, updateFlags_apply_ne _ _ _ _ hpid]
        · rw [if_neg h3]
          exact ih store hdue
      · simp only [h2, Bool.false_eq_true, if_false]
        exact ih store hdue

/-- Counterexample to C6 as stated: job 3 in `processing` has `Remote`
set, lacks `Rescheduled` and `RunningLocal`, and is past the reschedule
timeout — yet because `CompleteLocal` is also set (the send race the code
comments on), `onReschedule` erases it from `processing` instead of
appending it back to `pending`. -/
theorem reschedule_complete_counterexample :
    ((stResched.jobs 3).unit.flags.remote = true ∧
     (stResched.jobs 3).unit.flags.rescheduled = false ∧
     (stResched.jobs 3).unit.flags.runningLocal = false ∧
     stResched.rescheduleTimeout ≤ 50 - (stResched.jobs 3).started ∧
     3 ∈ stResched.processing) ∧
    3 ∉ (onReschedule stResched 50).1.pending ∧
    3 ∉ (onReschedule stResched 50).1.processing := by
  decide

/-- C6 as amended: a job in `processing` is appended back to `pending`
exactly when it is not yet Complete, has `Remote` set, lacks both
`Rescheduled` and `RunningLocal`, and `now - started` is at least
`reschedule_timeout_ms` (already-Complete entries are erased instead);
such a job gets `Rescheduled` set and stays in `processing` so the
original remote replica's late result can still be accepted. -/
theorem reschedule_pending_iff (st : ServerState) (now id : Nat)
    (hmem : id ∈ st.processing) :
    (rescheduleDue (st.jobs id) st.rescheduleTimeout now = true →
      id ∈ (onReschedule st now).1.pending ∧
      id ∈ (onReschedule st now).1.processing ∧
      ((onReschedule st now).1.jobs id).unit.flags.rescheduled = true) ∧
    (rescheduleDue (st.jobs id) st.rescheduleTimeout now = false →
      (id ∈ (onReschedule st now).1.pending ↔ id ∈ st.pending)) := by
  constructor
  · intro hdue
    have h := rescheduleWalk_due st.rescheduleTimeout now id st.processing st.jobs hmem hdue
    unfold onReschedule
    refine ⟨?_, ?_, ?_⟩
    · simp only [List.mem_append]
      exact Or.inr h.2.1
    · exact h.1
    · exact h.2.2
  · intro hdue
    have h := rescheduleWalk_not_due st.rescheduleTimeout now id st.processing st.jobs hdue
    unfold onReschedule
    simp only [List.mem_append]
    constructor
    · intro hc
      rcases hc with hc | hc
      · exact hc
      · exact absurd hc h.1
    · exact Or.inl

/-- Witness for the amended C6: the stalled remote job 4 is re-pended,
kept in `processing`, and marked `Rescheduled`; the already-complete
job 3 of the counterexample state is not re-pended. -/
theorem reschedule_pending_iff_witness :
    (4 ∈ (onReschedule stDue 50).1.pending ∧
     4 ∈ (onReschedule stDue 50).1.processing ∧
     ((onReschedule stDue 50).1.jobs 4).unit.flags.rescheduled = true) ∧
    (3 ∈ (onReschedule stResched 50).1.pending ↔ 3 ∈ stResched.pending) :=
  ⟨(reschedule_pending_iff stDue 50 4 (by decide)).1 (by decide),
   (reschedule_pending_iff stResched 50 3 (by decide)).2 (by decide)⟩

theorem compressUpdate_props (cf : List Nat → List Nat) (store : Nat → IndexerJob)
    (p id : Nat) :
    ((updateJob store p (compressJob cf) id).unit.flags.fromRemote
        = (store id).unit.flags.fromRemote) ∧
    ((updateJob store p (compressJob cf) id).unit.flags.completeLocal
        = (store id).unit.flags.completeLocal) ∧
    ((updateJob store p (compressJob cf) id).unit.flags.completeRemote
        = (store id).unit.flags.completeRemote) ∧
    ((updateJob store p (compressJob cf) id).unit.preprocessed
        = (store id).unit.preprocessed ∨
     (updateJob store p (compressJob cf) id).unit.preprocessed
        = cf (store id).unit.preprocessed) := by
  by_cases h : id = p
  · subst h
    simp [updateJob_apply, compressJob]
  · simp [updateJob_apply_ne _ _ _ _ h]

theorem takeJobsWalk_frame (cf : List Nat → List Nat) (cr : Bool) (id : Nat) :
    ∀ (l : List Nat) (n : Nat) (store : Nat → IndexerJob),
      ((takeJobsWalk cf cr store l n).1 id).unit.flags.fromRemote
          = (store id).unit.flags.fromRemote ∧
      ((takeJobsWalk cf cr store l n).1 id).unit.flags.completeLocal
          = (store id).unit.flags.completeLocal ∧
      ((takeJobsWalk cf cr store l n).1 id).unit.flags.completeRemote
          = (store id).unit.flags.completeRemote := by
  intro l
  induction l with
  | nil => intro n store; simp [takeJobsWalk]
  | cons p rest ih =>
    intro n store
    simp only [takeJobsWalk]
    split
    · exact ih n store
    · split
      · rcases compressUpdate_props cf store p id with ⟨h1, h2, h3, _⟩
        split
        · split
          · exact ⟨h1, h2, h3⟩
          · exact ⟨rfl, rfl, rfl⟩
        · split
          · exact ⟨(ih (n - 1) _).1.trans h1, (ih (n - 1) _).2.1.trans h2,
              (ih (n - 1) _).2.2.trans h3⟩
          · exact ih (n - 1) store
      · exact ih n store

theorem takeJobsWalk_preprocessed_ne (cf : List Nat → List Nat) (cr : Bool) (id : Nat)
    (hc : ∀ l : List Nat, l ≠ [] → cf l ≠ []) :
    ∀ (l : List Nat) (n : Nat) (store : Nat → IndexerJob),
      (store id).unit.preprocessed ≠ [] →
      ((takeJobsWalk cf cr store l n).1 id).unit.preprocessed ≠ [] := by
  intro l
  induction l with
  | nil => intro n store h; simpa [takeJobsWalk] using h
  | cons p rest ih =>
    intro n store h
    simp only [takeJobsWalk]
    split
    · exact ih n store h
    · split
      · rcases compressUpdate_props cf store p id with ⟨_, _, _, h4⟩
        have hne : (updateJob store p (compressJob cf) id).unit.preprocessed ≠ [] := by
          rcases h4 with h4 | h4
          · rw [h4]; exact h
          · rw [h4]; exact hc _ h
        split
        · split
          · exact hne
          · exact h
        · split
          · exact ih (n - 1) _ hne
          · exact ih (n - 1) store h
      · exact ih n store h

theorem takeJobsWalk_len_fin (cf : List Nat → List Nat) (cr : Bool) :
    ∀ (l : List Nat) (n : Nat) (store : Nat → IndexerJob), 1 ≤ n →
      (takeJobsWalk cf cr store l n).2.1.length ≤ n ∧
      (takeJobsWalk cf cr store l n).2.2.2
        = decide ((takeJobsWalk cf cr store l n).2.1.length < n) := by
  intro l
  induction l with
  | nil =>
    intro n store hn
    refine ⟨by simp [takeJobsWalk], ?_⟩
    simp only [takeJobsWalk, List.length_nil]
    exact (decide_eq_true (by omega)).symm
  | cons p rest ih =>
    intro n store hn
    simp only [takeJobsWalk]
    split
    · exact ih n store hn
    · split
      · by_cases hn1 : n = 1
        · subst hn1
          rw [if_pos rfl]
          exact ⟨by simp, by simp⟩
        · rw [if_neg hn1]
          have hn2 : 1 ≤ n - 1 := by omega
          split
          · have h := ih (n - 1) (updateJob store p (compressJob cf)) hn2
            refine ⟨by simp only [List.length_cons]; omega, ?_⟩
            simp only [List.length_cons]
            rw [h.2]
            exact decide_eq_decide.mpr (by omega)
          · have h := ih (n - 1) store hn2
            refine ⟨by simp only [List.length_cons]; omega, ?_⟩
            simp only [List.length_cons]
            rw [h.2]
            exact decide_eq_decide.mpr (by omega)
      · exact ih n store hn

theorem takeJobsWalk_taken_props (cf : List Nat → List Nat) (cr : Bool)
    (hc : ∀ l : List Nat, l ≠ [] → cf l ≠ []) :
    ∀ (l : List Nat) (n : Nat) (store : Nat → IndexerJob),
      ∀ id ∈ (takeJobsWalk cf cr store l n).2.1,
        ((takeJobsWalk cf cr store l n).1 id).unit.flags.fromRemote = false ∧
        ((takeJobsWalk cf cr store l n).1 id).unit.preprocessed ≠ [] ∧
        ((store id).unit.flags.completeLocal || (store id).unit.flags.completeRemote)
          = false := by
  intro l
  induction l with
  | nil => intro n store id hid; simp [takeJobsWalk] at hid
  | cons p rest ih =>
    intro n store id hid
    simp only [takeJobsWalk] at hid ⊢
    by_cases h1 : ((store p).unit.flags.completeLocal
        || (store p).unit.flags.completeRemote) = true
    · simp only [h1, if_true] at hid ⊢
      exact ih n store id hid
    · simp only [h1, Bool.false_eq_true, if_false] at hid ⊢
      by_cases h2 : (!(store p).unit.flags.fromRemote
          && decide ((store p).unit.preprocessed ≠ [])) = true
      · simp only [h2, if_true] at hid ⊢
        have hfr : (store p).unit.flags.fromRemote = false := by
          simp only [Bool.and_eq_true, Bool.not_eq_true'] at h2
          exact h2.1
        have hpp : (store p).unit.preprocessed ≠ [] := by
          simp only [Bool.and_eq_true, decide_eq_true_eq] at h2
          exact h2.2
        have hcomp : ((store p).unit.flags.completeLocal
            || (store p).unit.flags.completeRemote) = false := by
          simp only [Bool.or_eq_true, not_or, Bool.not_eq_true] at h1
          simp [h1.1, h1.2]
        by_cases hn1 : n = 1
        · rw [if_pos hn1] at hid ⊢
          by_cases h4 : (cr && !(store p).unit.flags.preprocessCompressed) = true
          · simp only [h4, if_true] at hid ⊢
            simp only [List.mem_singleton] at hid
            subst hid
            have hne : (updateJob store id (compressJob cf) id).unit.preprocessed ≠ [] := by
              rcases (compressUpdate_props cf store id id).2.2.2 with h5 | h5
              · rw [h5]; exact hpp
              · rw [h5]; exact hc _ hpp
            rcases compressUpdate_props cf store id id with ⟨d1, _, _, _⟩
            exact ⟨d1.trans hfr, hne, hcomp⟩
          · simp only [h4, Bool.false_eq_true, if_false] at hid ⊢
            simp only [List.mem_singleton] at hid
            subst hid
            exact ⟨hfr, hpp, hcomp⟩
        · rw [if_neg hn1] at hid ⊢
          by_cases h4 : (cr && !(store p).unit.flags.preprocessCompressed) = true
          · simp only [h4, if_true] at hid ⊢
            have hne : (updateJob store p (compressJob cf) p).unit.preprocessed ≠ [] := by
              rcases (compressUpdate_props cf store p p).2.2.2 with h5 | h5
              · rw [h5]; exact hpp
              · rw [h5]; exact hc _ hpp
            rcases List.mem_cons.mp hid with hid | hid
            · subst hid
              refine ⟨?_, ?_, hcomp⟩
              · rw [(takeJobsWalk_frame cf cr id rest (n - 1)
                  (updateJob store id (compressJob cf))).1]
                rcases compressUpdate_props cf store id id with ⟨d1, _, _, _⟩
                exact d1.trans hfr
              · exact takeJobsWalk_preprocessed_ne cf cr id hc rest (n - 1) _ hne
            · have hrec := ih (n - 1) (updateJob store p (compressJob cf)) id hid
              rcases compressUpdate_props cf store p id with ⟨_, c2, c3, _⟩
              refine ⟨hrec.1, hrec.2.1, ?_⟩
              rw [← c2, ← c3]
              exact hrec.2.2
          · simp only [h4, Bool.false_eq_true, if_false] at hid ⊢
            rcases List.mem_cons.mp hid with hid | hid
            · subst hid
              refine ⟨?_, ?_, hcomp⟩
              · rw [(takeJobsWalk_frame cf cr id rest (n - 1) store).1]
                exact hfr
              · exact takeJobsWalk_preprocessed_ne cf cr id hc rest (n - 1) store hpp
            · exact ih (n - 1) store id hid
      · simp only [h2, Bool.false_eq_true, if_false] at hid ⊢
        exact ih n store id hid

theorem takeJobsWalk_decomp (cf : List Nat → List Nat) (cr : Bool) :
    ∀ (l : List Nat) (n : Nat) (store : Nat → IndexerJob),
      ∃ walked kept rest, l = walked ++ rest ∧
        (takeJobsWalk cf cr store l n).2.2.1 = kept ++ rest ∧
        ∀ id ∈ kept,
          (((takeJobsWalk cf cr store l n).1 id).unit.flags.completeLocal
            || ((takeJobsWalk cf cr store l n).1 id).unit.flags.completeRemote)
            = false := by
  intro l
  induction l with
  | nil => intro n store; exact ⟨[], [], [], rfl, rfl, by simp⟩
  | cons p rest ih =>
    intro n store
    simp only [takeJobsWalk]
    by_cases h1 : ((store p).unit.flags.completeLocal
        || (store p).unit.flags.completeRemote) = true
    · simp only [h1, if_true]
      obtain ⟨w, k, r, hw, hk, hp⟩ := ih n store
      exact ⟨p :: w, k, r, by rw [List.cons_append, hw], hk, hp⟩
    · simp only [h1, Bool.false_eq_true, if_false]
      by_cases h2 : (!(store p).unit.flags.fromRemote
          && decide ((store p).unit.preprocessed ≠ [])) = true
      · simp only [h2, if_true]
        by_cases hn1 : n = 1
        · rw [if_pos hn1]
          exact ⟨[p], [], rest, rfl, rfl, by simp⟩
        · rw [if_neg hn1]
          by_cases h4 : (cr && !(store p).unit.flags.preprocessCompressed) = true
          · simp only [h4, if_true]
            obtain ⟨w, k, r, hw, hk, hp⟩ := ih (n - 1) (updateJob store p (compressJob cf))
            exact ⟨p :: w, k, r, by rw [List.cons_append, hw], hk, hp⟩
          · simp only [h4, Bool.false_eq_true, if_false]
            obtain ⟨w, k, r, hw, hk, hp⟩ := ih (n - 1) store
            exact ⟨p :: w, k, r, by rw [List.cons_append, hw], hk, hp⟩
      · simp only [h2, Bool.false_eq_true, if_false]
        obtain ⟨w, k, r, hw, hk, hp⟩ := ih n store
        refine ⟨p :: w, p :: k, r, by rw [List.cons_append, hw],
          by rw [hk, List.cons_append], ?_⟩
        intro id hid
        rcases List.mem_cons.mp hid with hid | hid
        · subst hid
          have hf := takeJobsWalk_frame cf cr id rest n store
          rw [hf.2.1, hf.2.2]
          simp only [Bool.or_eq_true, not_or, Bool.not_eq_true] at h1
          simp [h1.1, h1.2]
        · exact hp id hid

/-- Counterexample to C5 as stated: a `JobRequest(0)` against a single
eligible pending job takes that job anyway (the `jobs.size() ==
message.numJobs()` break is checked only after an append, so it never
fires for `numJobs = 0`), and the response still reports
`finished = true` although no fewer than 0 jobs were taken. -/
theorem jobRequest_zero_counterexample :
    ¬ ((handleJobRequest (fun l => l) false stPend 0).2.1.length ≤ 0) ∧
    (handleJobRequest (fun l => l) false stPend 0).2.1 = [0] ∧
    (handleJobRequest (fun l => l) false stPend 0).2.2 = true := by
  decide

/-- C5 as amended: for every `JobRequest(n)` with `n ≥ 1`, the response
contains at most `n` jobs, each not `FromRemote` and with non-empty
preprocessed content (compression of a non-empty blob being non-empty);
pending jobs that are already Complete are erased during the walk (the
walked prefix of `pending` keeps no Complete job); and the `finished`
flag is true exactly when fewer than `n` jobs were taken. -/
theorem jobRequest_response_spec (cf : List Nat → List Nat) (cr : Bool)
    (st : ServerState) (n : Nat) (hn : 1 ≤ n)
    (hc : ∀ l : List Nat, l ≠ [] → cf l ≠ []) :
    (handleJobRequest cf cr st n).2.1.length ≤ n ∧
    ((handleJobRequest cf cr st n).2.2
      = decide ((handleJobRequest cf cr st n).2.1.length < n)) ∧
    (∀ id ∈ (handleJobRequest cf cr st n).2.1,
      ((handleJobRequest cf cr st n).1.jobs id).unit.flags.fromRemote = false ∧
      ((handleJobRequest cf cr st n).1.jobs id).unit.preprocessed ≠ [] ∧
      ((st.jobs id).unit.flags.completeLocal
        || (st.jobs id).unit.flags.completeRemote) = false) ∧
    (∃ walked kept rest, st.pending = walked ++ rest ∧
      (handleJobRequest cf cr st n).1.pending = kept ++ rest ∧
      ∀ id ∈ kept,
        (((handleJobRequest cf cr st n).1.jobs id).unit.flags.completeLocal
          || ((handleJobRequest cf cr st n).1.jobs id).unit.flags.completeRemote)
          = false) := by
  have hlf := takeJobsWalk_len_fin cf cr st.pending n st.jobs hn
  have htp := takeJobsWalk_taken_props cf cr hc st.pending n st.jobs
  have hdc := takeJobsWalk_decomp cf cr st.pending n st.jobs
  exact ⟨hlf.1, hlf.2, htp, hdc⟩

/-- Witness for the amended C5: `JobRequest(1)` against a single eligible
pending job takes exactly that job, reports `finished = false`, and
leaves `pending` empty. -/
theorem jobRequest_response_spec_witness :
    (handleJobRequest (fun l => l) false stPend 1).2.1.length ≤ 1 ∧
    ((handleJobRequest (fun l => l) false stPend 1).2.2
      = decide ((handleJobRequest (fun l => l) false stPend 1).2.1.length < 1)) ∧
    (∀ id ∈ (handleJobRequest (fun l => l) false stPend 1).2.1,
      ((handleJobRequest (fun l => l) false stPend 1).1.jobs id).unit.flags.fromRemote
        = false ∧
      ((handleJobRequest (fun l => l) false stPend 1).1.jobs id).unit.preprocessed ≠ [] ∧
      ((stPend.jobs id).unit.flags.completeLocal
        || (stPend.jobs id).unit.flags.completeRemote) = false) ∧
    (∃ walked kept rest, stPend.pending = walked ++ rest ∧
      (handleJobRequest (fun l => l) false stPend 1).1.pending = kept ++ rest ∧
      ∀ id ∈ kept,
        (((handleJobRequest (fun l => l) false stPend 1).1.jobs id).unit.flags.completeLocal
          || ((handleJobRequest (fun l => l) false stPend 1).1.jobs id).unit.flags.completeRemote)
          = false) :=
  jobRequest_response_spec (fun l => l) false stPend 1 (by decide)
    (fun l h => by simpa using h)

theorem insertProcessing_mem (a b : Nat) (l : List Nat) :
    a ∈ insertProcessing b l ↔ a = b ∨ a ∈ l := by
  unfold insertProcessing
  split
  · rename_i hb
    constructor
    · exact Or.inr
    · rintro (rfl | h)
      · exact hb
      · exact h
  · simp [List.mem_append, or_comm]

theorem takeJobsWalk_subsets (cf : List Nat → List Nat) (cr : Bool) :
    ∀ (l : List Nat) (n : Nat) (store : Nat → IndexerJob),
      (∀ id ∈ (takeJobsWalk cf cr store l n).2.1, id ∈ l) ∧
      (∀ id ∈ (takeJobsWalk cf cr store l n).2.2.1, id ∈ l) := by
  intro l
  induction l with
  | nil => intro n store; simp [takeJobsWalk]
  | cons p rest ih =>
    intro n store
    simp only [takeJobsWalk]
    by_cases h1 : ((store p).unit.flags.completeLocal
        || (store p).unit.flags.completeRemote) = true
    · simp only [h1, if_true]
      exact ⟨fun id hid => List.mem_cons_of_mem _ ((ih n store).1 id hid),
        fun id hid => List.mem_cons_of_mem _ ((ih n store).2 id hid)⟩
    · simp only [h1, Bool.false_eq_true, if_false]
      by_cases h2 : (!(store p).unit.flags.fromRemote
          && decide ((store p).unit.preprocessed ≠ [])) = true
      · simp only [h2, if_true]
        by_cases hn1 : n = 1
        · rw [if_pos hn1]
          exact ⟨fun id hid => by
              simp only [List.mem_singleton] at hid
              simp [hid],
            fun id hid => List.mem_cons_of_mem _ hid⟩
        · rw [if_neg hn1]
          split
          · refine ⟨fun id hid => ?_, fun id hid =>
              List.mem_cons_of_mem _ ((ih (n - 1) _).2 id hid)⟩
            rcases List.mem_cons.mp hid with hid | hid
            · simp [hid]
            · exact List.mem_cons_of_mem _ ((ih (n - 1) _).1 id hid)
          · refine ⟨fun id hid => ?_, fun id hid =>
              List.mem_cons_of_mem _ ((ih (n - 1) store).2 id hid)⟩
            rcases List.mem_cons.mp hid with hid | hid
            · simp [hid]
            · exact List.mem_cons_of_mem _ ((ih (n - 1) store).1 id hid)
      · simp only [h2, Bool.false_eq_true, if_false]
        refine ⟨fun id hid => List.mem_cons_of_mem _ ((ih n store).1 id hid),
          fun id hid => ?_⟩
        rcases List.mem_cons.mp hid with hid | hid
        · simp [hid]
        · exact List.mem_cons_of_mem _ ((ih n store).2 id hid)

theorem takeJobsWalk_disjoint (cf : List Nat → List Nat) (cr : Bool) :
    ∀ (l : List Nat) (n : Nat) (store : Nat → IndexerJob), l.Nodup →
      ∀ id ∈ (takeJobsWalk cf cr store l n).2.1,
        id ∉ (takeJobsWalk cf cr store l n).2.2.1 := by
  intro l
  induction l with
  | nil => intro n store _ id hid; simp [takeJobsWalk] at hid
  | cons p rest ih =>
    intro n store hnd id hid
    have hp : p ∉ rest := (List.nodup_cons.mp hnd).1
    have hnd' : rest.Nodup := (List.nodup_cons.mp hnd).2
    simp only [takeJobsWalk] at hid ⊢
    by_cases h1 : ((store p).unit.flags.completeLocal
        || (store p).unit.flags.completeRemote) = true
    · simp only [h1, if_true] at hid ⊢
      exact ih n store hnd' id hid
    · simp only [h1, Bool.false_eq_true, if_false] at hid ⊢
      by_cases h2 : (!(store p).unit.flags.fromRemote
          && decide ((store p).unit.preprocessed ≠ [])) = true
      · simp only [h2, if_true] at hid ⊢
        by_cases hn1 : n = 1
        · rw [if_pos hn1] at hid ⊢
          simp only [List.mem_singleton] at hid
          subst hid
          exact hp
        · rw [if_neg hn1] at hid ⊢
          split at hid <;> rename_i hsplit
          all_goals simp only [hsplit, if_true, Bool.false_eq_true, if_false] at *
          · rcases List.mem_cons.mp hid with hid | hid
            · subst hid
              intro hc
              exact hp ((takeJobsWalk_subsets cf cr rest (n - 1) _).2 id hc)
            · exact ih (n - 1) _ hnd' id hid
          · rcases List.mem_cons.mp hid with hid | hid
            · subst hid
              intro hc
              exact hp ((takeJobsWalk_subsets cf cr rest (n - 1) store).2 id hc)
            · exact ih (n - 1) store hnd' id hid
      · simp only [h2, Bool.false_eq_true, if_false] at hid ⊢
        have hsub := (takeJobsWalk_subsets cf cr rest n store).1 id hid
        intro hc
        rcases List.mem_cons.mp hc with hc | hc
        · subst hc
          exact hp hsub
        · exact ih n store hnd' id hid hc

theorem sendFinished_fold_mem (now : Nat) :
    ∀ (taken : List Nat) (s : ServerState) (id : Nat),
      id ∈ taken ∨ id ∈ s.processing →
      id ∈ (taken.foldl (fun acc id =>
        { acc with
            processing := insertProcessing id acc.processing,
            jobs := updateJob acc.jobs id (fun j =>
              { j with unit := { j.unit with flags :=
                  { j.unit.flags with remote := true, rescheduled := false } },
                       started := now }) }) s).processing := by
  intro taken
  induction taken with
  | nil =>
    intro s id h
    rcases h with h | h
    · simp at h
    · simpa using h
  | cons q rest ih =>
    intro s id h
    simp only [List.foldl_cons]
    apply ih
    rcases h with h | h
    · rcases List.mem_cons.mp h with h | h
      · subst h
        exact Or.inr ((insertProcessing_mem id id s.processing).mpr (Or.inl rfl))
      · exact Or.inl h
    · exact Or.inr ((insertProcessing_mem id q s.processing).mpr (Or.inr h))

theorem jobRequestSendFinished_mem (st : ServerState) (taken : List Nat) (fin : Bool)
    (now id : Nat) (h : id ∈ taken ∨ id ∈ st.processing) :
    id ∈ (jobRequestSendFinished st taken fin now).processing := by
  unfold jobRequestSendFinished
  apply sendFinished_fold_mem
  cases fin <;> simpa using h

theorem onError_fold_mem :
    ∀ (taken : List Nat) (s : ServerState) (id : Nat),
      id ∈ taken ∨ id ∈ s.pending →
      id ∈ (taken.foldl (fun acc id =>
        { acc with
            jobs := updateFlags acc.jobs id (fun f => { f with rescheduled := false }),
            pending := acc.pending ++ [id] }) s).pending := by
  intro taken
  induction taken with
  | nil =>
    intro s id h
    rcases h with h | h
    · simp at h
    · simpa using h
  | cons q rest ih =>
    intro s id h
    simp only [List.foldl_cons]
    apply ih
    rcases h with h | h
    · rcases List.mem_cons.mp h with h | h
      · subst h
        exact Or.inr (by simp)
      · exact Or.inl h
    · exact Or.inr (by simp [h])

theorem jobRequestOnError_mem (st : ServerState) (taken : List Nat) (id : Nat)
    (h : id ∈ taken ∨ id ∈ st.pending) :
    id ∈ (jobRequestOnError st taken).pending := by
  unfold jobRequestOnError
  exact onError_fold_mem taken st id h

/-- Counterexample to C2 as stated: one admitted, eligible pending job
(id 0, neither Complete nor Aborted); a peer's `JobRequest(1)` takes it,
and when `handleJobRequestMessage` returns — an event-handler boundary,
with the `JobResponse` send still in flight — the job is in none of
`pending`, `processing`, `local_jobs`: it is held only by the send
callbacks. -/
theorem jobRequest_send_window_counterexample :
    (handleJobRequest (fun l => l) false stPend 1).2.1 = [0] ∧
    ((stPend.jobs 0).unit.flags.completeLocal
      || (stPend.jobs 0).unit.flags.completeRemote) = false ∧
    (stPend.jobs 0).unit.flags.aborted = false ∧
    0 ∉ (handleJobRequest (fun l => l) false stPend 1).1.pending ∧
    0 ∉ (handleJobRequest (fun l => l) false stPend 1).1.processing ∧
    (∀ p ∈ (handleJobRequest (fun l => l) false stPend 1).1.localJobs, p.2.1 ≠ 0) := by
  decide

/-- C2 as amended: jobs taken for a peer's `JobRequest` leave `pending`
immediately, while `processing` and `local_jobs` are unchanged by the
handler — so a taken job that was not already in `processing` (i.e. not a
rescheduled replica) is reachable through none of the three tables while
the send is in flight; it is re-recorded in `processing` by the
send-finished callback and reinserted into `pending` by the
error/disconnect callback. -/
theorem jobRequest_send_window (cf : List Nat → List Nat) (cr : Bool)
    (st : ServerState) (n now : Nat) (st' : ServerState) (taken : List Nat) (fin : Bool)
    (hnd : st.pending.Nodup)
    (h : handleJobRequest cf cr st n = (st', taken, fin)) :
    (∀ id ∈ taken, id ∉ st'.pending) ∧
    st'.processing = st.processing ∧
    st'.localJobs = st.localJobs ∧
    (∀ id ∈ taken, id ∈ (jobRequestSendFinished st' taken fin now).processing) ∧
    (∀ id ∈ taken, id ∈ (jobRequestOnError st' taken).pending) := by
  have hst' : st' = (handleJobRequest cf cr st n).1 := by rw [h]
  have htk : taken = (handleJobRequest cf cr st n).2.1 := by rw [h]
  subst hst' htk
  refine ⟨?_, rfl, rfl, ?_, ?_⟩
  · intro id hid
    exact takeJobsWalk_disjoint cf cr st.pending n st.jobs hnd id hid
  · intro id hid
    exact jobRequestSendFinished_mem _ _ _ _ _ (Or.inl hid)
  · intro id hid
    exact jobRequestOnError_mem _ _ _ (Or.inl hid)

/-- Witness for the amended C2 at the concrete one-job state. -/
theorem jobRequest_send_window_witness :
    (∀ id ∈ (handleJobRequest (fun l => l) false stPend 1).2.1,
      id ∉ (handleJobRequest (fun l => l) false stPend 1).1.pending) ∧
    (handleJobRequest (fun l => l) false stPend 1).1.processing = stPend.processing ∧
    (handleJobRequest (fun l => l) false stPend 1).1.localJobs = stPend.localJobs ∧
    (∀ id ∈ (handleJobRequest (fun l => l) false stPend 1).2.1,
      id ∈ (jobRequestSendFinished (handleJobRequest (fun l => l) false stPend 1).1
        (handleJobRequest (fun l => l) false stPend 1).2.1
        (handleJobRequest (fun l => l) false stPend 1).2.2 9).processing) ∧
    (∀ id ∈ (handleJobRequest (fun l => l) false stPend 1).2.1,
      id ∈ (jobRequestOnError (handleJobRequest (fun l => l) false stPend 1).1
        (handleJobRequest (fun l => l) false stPend 1).2.1).pending) :=
  jobRequest_send_window (fun l => l) false stPend 1 9
    (handleJobRequest (fun l => l) false stPend 1).1
    (handleJobRequest (fun l => l) false stPend 1).2.1
    (handleJobRequest (fun l => l) false stPend 1).2.2
    (by decide) rfl

theorem workWalk_props (pe : String → Bool) (now : Nat) :
    ∀ (l : List Nat) (st : ServerState) (jobs : Int) (ann : Nat),
      (((workWalk pe now st l jobs ann).1.localJobs.length : Int)
          + (workWalk pe now st l jobs ann).2.2.1
        = (st.localJobs.length : Int) + jobs) ∧
      (workWalk pe now st l jobs ann).2.2.1 ≤ jobs ∧
      (jobs ≤ 0 → (workWalk pe now st l jobs ann).2.2.1 = jobs) ∧
      (0 ≤ jobs → 0 ≤ (workWalk pe now st l jobs ann).2.2.1) ∧
      (workWalk pe now st l jobs ann).1.poolLoad = st.poolLoad ∧
      (workWalk pe now st l jobs ann).1.pendingJobRequests = st.pendingJobRequests ∧
      (workWalk pe now st l jobs ann).1.jobCount = st.jobCount ∧
      (workWalk pe now st l jobs ann).1.announced = st.announced ∧
      (workWalk pe now st l jobs ann).1.remotes = st.remotes ∧
      (workWalk pe now st l jobs ann).1.nextConn = st.nextConn := by
  intro l
  induction l with
  | nil =>
    intro st jobs ann
    simp [workWalk]
  | cons p rest ih =>
    intro st jobs ann
    simp only [workWalk]
    by_cases h1 : (((st.jobs p).unit.flags.completeLocal
        || (st.jobs p).unit.flags.completeRemote)) = true
    · simp only [h1, if_true]
      exact ih st jobs ann
    · simp only [h1, Bool.false_eq_true, if_false]
      by_cases h2 : (0 : Int) < jobs
      · rw [if_pos h2]
        by_cases h3 : (st.jobs p).unit.flags.fromRemote = true
        · simp only [h3, if_true]
          have := ih ({ st with
            jobs := updateJob (updateFlags st.jobs p fun g => { g with rescheduled := false })
              p launchProcess,
            localJobs := st.localJobs ++ [(st.nextPid, p, now)],
            nextPid := st.nextPid + 1 }) (jobs - 1) ann
          refine ⟨?_, by omega, by omega, by omega, ?_, ?_, ?_, ?_, ?_, ?_⟩ <;>
            (simp only [this.1, this.2.2.2.2.1, this.2.2.2.2.2.1, this.2.2.2.2.2.2.1,
              this.2.2.2.2.2.2.2.1, this.2.2.2.2.2.2.2.2.1,
              this.2.2.2.2.2.2.2.2.2];
             all_goals
               first
                 | omega
                 | (simp [List.length_append]; try omega))
        · simp only [h3, Bool.false_eq_true, if_false]
          have := ih ({ st with
            processing := insertProcessing p st.processing,
            jobs := updateJob (updateFlags st.jobs p fun g => { g with rescheduled := false })
              p launchProcess,
            localJobs := st.localJobs ++ [(st.nextPid, p, now)],
            nextPid := st.nextPid + 1 }) (jobs - 1) ann
          refine ⟨?_, by omega, by omega, by omega, ?_, ?_, ?_, ?_, ?_, ?_⟩ <;>
            (simp only [this.1, this.2.2.2.2.1, this.2.2.2.2.2.1, this.2.2.2.2.2.2.1,
              this.2.2.2.2.2.2.2.1, this.2.2.2.2.2.2.2.2.1,
              this.2.2.2.2.2.2.2.2.2];
             all_goals
               first
                 | omega
                 | (simp [List.length_append]; try omega))
      · rw [if_neg h2]
        by_cases h3 : (!(st.jobs p).unit.flags.fromRemote) = true
        · simp only [h3, if_true]
          by_cases h4 : (!pe (st.jobs p).project) = true
          · simp only [h4, if_true]
            exact ih st jobs ann
          · simp only [h4, Bool.false_eq_true, if_false]
            exact ih st jobs (ann + 1)
        · simp only [h3, Bool.false_eq_true, if_false]
          exact ih st jobs ann

theorem workAfterSlots_bound (pe : String → Bool) (dial : RemoteRec → Bool) (now : Nat)
    (st : ServerState) (jobs : Int)
    (h : (st.localJobs.length : Int) + st.poolLoad + reqSum st + max jobs 0
        ≤ st.jobCount) :
    slotSum (workAfterSlots pe dial now st jobs).1 ≤ st.jobCount := by
  unfold workAfterSlots
  split
  · simp only [slotSum]
    omega
  · obtain ⟨hA, hB, hC, hD, hE, hF, hG, hH, hI, hJ⟩ :=
      workWalk_props pe now st.pending st jobs 0
    dsimp only
    split
    · simp only [slotSum, reqSum, hE, hF]
      simp only [reqSum] at h
      omega
    · split
      · split <;>
          (simp only [slotSum, reqSum, hE, hF];
           simp only [reqSum] at h; omega)
      · split <;>
          split <;>
            (simp only [slotSum, reqSum, List.map_append, List.sum_append,
               List.map_cons, List.map_nil, List.sum_cons, List.sum_nil, hE, hF];
             simp only [reqSum] at h; omega)

/-- Counterexample to C4 as stated: with `job_count = 1`,
`max_pending_preprocess = 5` and three compile commands waiting, one
`work` tick drains all three into the preprocess pool (the drain is
bounded by `max_pending_preprocess`, not by `job_count`) and exits with
`|local_jobs| + outstanding_preprocess + Σ pending_job_requests = 3 > 1 =
job_count`. -/
theorem slot_accounting_counterexample :
    slotSum stDrain = 0 ∧ stDrain.jobCount = 1 ∧
    slotSum (work (fun _ => true) (fun _ => false) 0 stDrain).1 = 3 := by
  decide

/-- C4 as amended: the slot sum at a `work` exit is bounded by
`job_count` provided the preprocess load after the drain still fits,
i.e. when pool load + drained count + |local_jobs| + Σ outstanding
request counts ≤ job_count on entry; the drain itself is bounded only by
`max_pending_preprocess` and can push the sum above `job_count`. -/
theorem slot_accounting_bounded (pe : String → Bool) (dial : RemoteRec → Bool)
    (now : Nat) (st : ServerState)
    (h : st.poolLoad + drainCount st + st.localJobs.length + reqSum st ≤ st.jobCount) :
    slotSum (work pe dial now st).1 ≤ st.jobCount := by
  unfold work
  apply workAfterSlots_bound
  simp only [reqSum] at h ⊢
  by_cases hn : st.noLocalCompiles = true <;>
    simp only [hn, if_true, Bool.false_eq_true, if_false] <;>
    omega

/-- Witness for the amended C4: an idle state with one free slot stays
within the bound. -/
theorem slot_accounting_bounded_witness :
    slotSum (work (fun _ => true) (fun _ => false) 0 stPend).1 ≤ stPend.jobCount :=
  slot_accounting_bounded (fun _ => true) (fun _ => false) 0 stPend (by decide)

theorem workAfterSlots_announced_true (pe : String → Bool) (dial : RemoteRec → Bool)
    (now : Nat) (st : ServerState) (jobs : Int) (h : st.announced = true) :
    (workAfterSlots pe dial now st jobs).1.announced = true ∧
    (workAfterSlots pe dial now st jobs).2.announceSent = false := by
  unfold workAfterSlots
  have hH := (workWalk_props pe now st.pending st jobs 0).2.2.2.2.2.2.2.1
  rw [h] at hH
  dsimp only
  split
  · exact ⟨h, rfl⟩
  · simp only [hH, Bool.not_true, Bool.false_and, Bool.false_eq_true, if_false]
    split
    · exact ⟨rfl, rfl⟩
    · split
      · exact ⟨rfl, rfl⟩
      · split
        · exact ⟨rfl, rfl⟩
        · exact ⟨rfl, rfl⟩

theorem workAfterSlots_sent_announced (pe : String → Bool) (dial : RemoteRec → Bool)
    (now : Nat) (st : ServerState) (jobs : Int)
    (h : (workAfterSlots pe dial now st jobs).2.announceSent = true) :
    (workAfterSlots pe dial now st jobs).1.announced = true := by
  unfold workAfterSlots at h ⊢
  dsimp only at h ⊢
  split at h <;> rename_i h0
  · simp at h
  · rw [if_neg h0]
    split at h <;> rename_i h1
    · simp at h
    · rw [if_neg h1]
      split at h <;> rename_i h2
      · rw [if_pos h2]
        dsimp only at h
        rw [if_pos h]
      · rw [if_neg h2]
        split at h <;> rename_i heq
        · simp only [heq]
          dsimp only at h
          rw [if_pos h]
        · simp only [heq]
          dsimp only at h
          rw [if_pos h]

theorem work_announced_true (pe : String → Bool) (dial : RemoteRec → Bool) (now : Nat)
    (st : ServerState) (h : st.announced = true) :
    (work pe dial now st).1.announced = true ∧
    (work pe dial now st).2.announceSent = false := by
  unfold work
  exact workAfterSlots_announced_true pe dial now _ _ h

theorem work_sent_announced (pe : String → Bool) (dial : RemoteRec → Bool) (now : Nat)
    (st : ServerState) (h : (work pe dial now st).2.announceSent = true) :
    (work pe dial now st).1.announced = true := by
  unfold work at h ⊢
  exact workAfterSlots_sent_announced pe dial now _ _ h

theorem runWork_announced_true (pe : String → Bool) (dial : RemoteRec → Bool) (now : Nat)
    (st : ServerState) (h : st.announced = true) :
    (runWork pe dial now st).1.announced = true ∧ (runWork pe dial now st).2 = false :=
  work_announced_true pe dial now st h

theorem runWork_sent_announced (pe : String → Bool) (dial : RemoteRec → Bool) (now : Nat)
    (st : ServerState) (h : (runWork pe dial now st).2 = true) :
    (runWork pe dial now st).1.announced = true :=
  work_sent_announced pe dial now st h

theorem handleIndexerMessage_announced (st : ServerState) (id : Nat) (ip pf : Bool) :
    (handleIndexerMessage st id ip pf).1.announced = st.announced := by
  by_cases h : id ∈ st.processing
  · cases ip <;> cases pf <;>
      by_cases hcl : (st.jobs id).unit.flags.completeLocal = true <;>
      by_cases hcr : (st.jobs id).unit.flags.completeRemote = true <;>
      by_cases hab : (st.jobs id).unit.flags.aborted = true <;>
      simp_all [handleIndexerMessage, updateFlags_apply]
  · simp [handleIndexerMessage, h]

theorem sendFinished_fold_announced (now : Nat) :
    ∀ (taken : List Nat) (s : ServerState),
      (taken.foldl (fun acc id =>
        { acc with
            processing := insertProcessing id acc.processing,
            jobs := updateJob acc.jobs id (fun j =>
              { j with unit := { j.unit with flags :=
                  { j.unit.flags with remote := true, rescheduled := false } },
                       started := now }) }) s).announced = s.announced := by
  intro taken
  induction taken with
  | nil => intro s; rfl
  | cons q rest ih =>
    intro s
    simp only [List.foldl_cons]
    rw [ih]

theorem jobRequestSendFinished_announced (st : ServerState) (taken : List Nat)
    (now : Nat) :
    (jobRequestSendFinished st taken false now).announced = st.announced := by
  unfold jobRequestSendFinished
  simp only [Bool.false_eq_true, if_false]
  exact sendFinished_fold_announced now taken st

theorem onError_fold_announced :
    ∀ (taken : List Nat) (s : ServerState),
      (taken.foldl (fun acc id =>
        { acc with
            jobs := updateFlags acc.jobs id (fun f => { f with rescheduled := false }),
            pending := acc.pending ++ [id] }) s).announced = s.announced := by
  intro taken
  induction taken with
  | nil => intro s; rfl
  | cons q rest ih =>
    intro s
    simp only [List.foldl_cons]
    rw [ih]

theorem jobRequestOnError_announced (st : ServerState) (taken : List Nat) :
    (jobRequestOnError st taken).announced = st.announced :=
  onError_fold_announced taken st

theorem onLocalJobFinished_announced (st : ServerState) (pid : Nat) (ret : Int)
    (errEmpty projLoaded : Bool) :
    (onLocalJobFinished st pid ret errEmpty projLoaded).1.announced = st.announced := by
  unfold onLocalJobFinished
  rcases lookupLocal st.localJobs pid with _ | ⟨jobId, t⟩
  · rfl
  · rfl

theorem handleJobAnnouncement_announced (st : ServerState) (peerName host : String)
    (port : Nat) :
    (handleJobAnnouncement st peerName host port).announced = st.announced := by
  unfold handleJobAnnouncement
  rcases lookupRemote st.remotes host with _ | r
  · rfl
  · rfl

theorem jobResponse_fold_announced (pe : String → Bool) (dial : RemoteRec → Bool)
    (now : Nat) :
    ∀ (newJobs : List (Nat × IndexerJob)) (acc : ServerState × Bool),
      acc.1.announced = true →
      (newJobs.foldl (jobResponseStep pe dial now) acc).1.announced = true ∧
      (newJobs.foldl (jobResponseStep pe dial now) acc).2 = acc.2 := by
  intro newJobs
  induction newJobs with
  | nil => intro acc h; exact ⟨h, rfl⟩
  | cons jb rest ih =>
    intro acc h
    simp only [List.foldl_cons]
    have hrw := runWork_announced_true pe dial now
      ({ acc.1 with
          jobs := updateJob acc.1.jobs jb.1 (fun _ =>
            { jb.2 with unit := { jb.2.unit with flags :=
                { jb.2.unit.flags with fromRemote := true } } }),
          pending := acc.1.pending ++ [jb.1] }) h
    have hstep1 : (jobResponseStep pe dial now acc jb).1.announced = true := hrw.1
    have hstep2 : (jobResponseStep pe dial now acc jb).2 = acc.2 := by
      unfold jobResponseStep
      dsimp only
      rw [hrw.2, Bool.or_false]
    have := ih (jobResponseStep pe dial now acc jb) hstep1
    exact ⟨this.1, this.2.trans hstep2⟩

theorem jobResponse_fold_sent (pe : String → Bool) (dial : RemoteRec → Bool) (now : Nat) :
    ∀ (newJobs : List (Nat × IndexerJob)) (acc : ServerState × Bool),
      (acc.2 = true → acc.1.announced = true) →
      (newJobs.foldl (jobResponseStep pe dial now) acc).2 = true →
      (newJobs.foldl (jobResponseStep pe dial now) acc).1.announced = true := by
  intro newJobs
  induction newJobs with
  | nil => intro acc hi h; exact hi h
  | cons jb rest ih =>
    intro acc hi h
    simp only [List.foldl_cons] at h ⊢
    refine ih (jobResponseStep pe dial now acc jb) ?_ h
    intro h2
    unfold jobResponseStep at h2 ⊢
    dsimp only at h2 ⊢
    rcases Bool.or_eq_true_iff.mp h2 with h3 | h3
    · exact (runWork_announced_true pe dial now
        ({ acc.1 with
            jobs := updateJob acc.1.jobs jb.1 (fun _ =>
              { jb.2 with unit := { jb.2.unit with flags :=
                  { jb.2.unit.flags with fromRemote := true } } }),
            pending := acc.1.pending ++ [jb.1] }) (hi h3)).1
    · exact runWork_sent_announced pe dial now _ h3

theorem step_announced_stable (st : ServerState) (e : Ev) (h : st.announced = true)
    (hc : isClearing e = false) :
    (step st e).1.announced = true ∧ (step st e).2 = false := by
  cases e with
  | workTick pe dial now => exact runWork_announced_true pe dial now st h
  | indexer jobId ipEmpty pf pe dial now =>
    exact runWork_announced_true pe dial now _
      ((handleIndexerMessage_announced st jobId ipEmpty pf).trans h)
  | jobRequest compressFn n => exact ⟨h, rfl⟩
  | respSendFinished taken fin now =>
    cases fin
    · exact ⟨(jobRequestSendFinished_announced st taken now).trans h, rfl⟩
    · simp [isClearing] at hc
  | respSendError taken =>
    exact ⟨(jobRequestOnError_announced st taken).trans h, rfl⟩
  | jobResponse conn host newJobs fin pe dial now =>
    have hfold := jobResponse_fold_announced pe dial now newJobs
      ({ st with pendingJobRequests := st.pendingJobRequests.filter (fun p => p.1 ≠ conn) },
        false) h
    simp only [step]
    cases fin
    · simp only [Bool.false_eq_true, if_false]
      exact ⟨hfold.1, hfold.2⟩
    · simp only [if_true]
      exact ⟨hfold.1, hfold.2⟩
  | clientConnected pe dial now => simp [isClearing] at hc
  | reschedule pe dial now =>
    simp only [step]
    split
    · exact runWork_announced_true pe dial now _ h
    · exact ⟨h, rfl⟩
  | localFinished pid ret errEmpty projLoaded pe dial now =>
    exact runWork_announced_true pe dial now _
      ((onLocalJobFinished_announced st pid ret errEmpty projLoaded).trans h)
  | announcementMsg peerName host port pe dial now =>
    exact runWork_announced_true pe dial now _
      ((handleJobAnnouncement_announced st peerName host port).trans h)
  | connDisconnected conn => exact ⟨h, rfl⟩

theorem step_sent_announced (st : ServerState) (e : Ev) (h : (step st e).2 = true) :
    (step st e).1.announced = true := by
  cases e with
  | workTick pe dial now => exact runWork_sent_announced pe dial now st h
  | indexer jobId ipEmpty pf pe dial now => exact runWork_sent_announced pe dial now _ h
  | jobRequest compressFn n => simp [step] at h
  | respSendFinished taken fin now => simp [step] at h
  | respSendError taken => simp [step] at h
  | jobResponse conn host newJobs fin pe dial now =>
    simp only [step] at h ⊢
    have hsent := jobResponse_fold_sent pe dial now newJobs
      ({ st with pendingJobRequests := st.pendingJobRequests.filter (fun p => p.1 ≠ conn) },
        false) (by intro hx; simp at hx)
    cases fin
    · simp only [Bool.false_eq_true, if_false] at h ⊢
      exact hsent h
    · simp only [if_true] at h ⊢
      exact hsent h
  | clientConnected pe dial now => exact runWork_sent_announced pe dial now _ h
  | reschedule pe dial now =>
    simp only [step] at h ⊢
    split at h <;> rename_i hd
    · rw [if_pos hd]
      exact runWork_sent_announced pe dial now _ h
    · simp at h
  | localFinished pid ret errEmpty projLoaded pe dial now =>
    exact runWork_sent_announced pe dial now _ h
  | announcementMsg peerName host port pe dial now =>
    exact runWork_sent_announced pe dial now _ h
  | connDisconnected conn => simp [step] at h

theorem no_send_while_announced :
    ∀ (es : List Ev) (st : ServerState), st.announced = true →
      (∀ e ∈ es, isClearing e = false) → sendCount st es = 0 := by
  intro es
  induction es with
  | nil => intro st _ _; rfl
  | cons e rest ih =>
    intro st h hc
    have hstep := step_announced_stable st e h (hc e (List.mem_cons_self _ _))
    simp only [sendCount, hstep.2, if_false, Bool.false_eq_true]
    rw [ih (step st e).1 hstep.1 (fun e' he' => hc e' (List.mem_cons_of_mem _ he'))]

/-- C7: once the `announced` flag is set true by the announcement branch
of `work`, it stays set and no further announcement is sent across any
sequence of main-thread events until one of the two clearing occurrences
happens: the send-finished callback of a `JobResponse` with
`finished = true`, or a new client joining the farm.  (Conjunct one: any
event that sends an announcement leaves `announced = true`; conjunct two:
from an announced state, a trace free of clearing events sends no
announcement at all.) -/
theorem announce_gating :
    (∀ (st : ServerState) (e : Ev),
      (step st e).2 = true → (step st e).1.announced = true) ∧
    (∀ (st : ServerState) (es : List Ev), st.announced = true →
      (∀ e ∈ es, isClearing e = false) → sendCount st es = 0) :=
  ⟨step_sent_announced, fun st es h hc => no_send_while_announced es st h hc⟩

/-- Witness for C7: on the job-server with one announcable pending job
and no free slots, a `work` tick sends the announcement and sets
`announced`; from that state a further `work` tick (not a clearing
event) sends nothing. -/
theorem announce_gating_witness :
    (step stAnn (Ev.workTick (fun _ => true) (fun _ => false) 0)).2 = true ∧
    (step stAnn (Ev.workTick (fun _ => true) (fun _ => false) 0)).1.announced = true ∧
    sendCount { stAnn with announced := true }
      [Ev.workTick (fun _ => true) (fun _ => false) 0] = 0 :=
  ⟨by decide,
   announce_gating.1 stAnn (Ev.workTick (fun _ => true) (fun _ => false) 0) (by decide),
   announce_gating.2 { stAnn with announced := true }
     [Ev.workTick (fun _ => true) (fun _ => false) 0] rfl
     (by
       intro e he
       rw [List.mem_singleton] at he
       subst he
       rfl)⟩

theorem rotate1_eq_rotate {α : Type} (l : List α) : rotate1 l = l.rotate 1 := by
  cases l with
  | nil => simp [rotate1]
  | cons x xs => simp [rotate1, List.rotate_cons_succ, List.rotate_zero]

theorem rotate1_iterate {α : Type} (l : List α) :
    ∀ m : Nat, rotate1^[m] l = l.rotate m := by
  intro m
  induction m generalizing l with
  | zero => simp [List.rotate_zero]
  | succ m ih =>
    rw [Function.iterate_succ_apply, ih (rotate1 l), rotate1_eq_rotate,
      List.rotate_rotate, Nat.add_comm]

theorem roundRobin_nil {α : Type} (k : Nat) : roundRobin k ([] : List α) = [] := by
  cases k <;> rfl

theorem roundRobin_take {α : Type} :
    ∀ (k : Nat) (l : List α), k ≤ l.length → roundRobin k l = l.take k := by
  intro k
  induction k with
  | zero => intro l _; simp [roundRobin]
  | succ k ih =>
    intro l hk
    cases l with
    | nil => simp at hk
    | cons x xs =>
      have hk' : k ≤ xs.length := by
        simp only [List.length_cons] at hk
        omega
      have hk2 : k ≤ (xs ++ [x]).length := by
        simp only [List.length_append, List.length_cons, List.length_nil]
        omega
      simp only [roundRobin, List.take_succ_cons]
      rw [ih (xs ++ [x]) hk2]
      exact congrArg (fun t => x :: t) (List.take_append_of_le_length hk')

theorem roundRobin_add {α : Type} :
    ∀ (m k : Nat) (l : List α),
      roundRobin (m + k) l = roundRobin m l ++ roundRobin k (rotate1^[m] l) := by
  intro m
  induction m with
  | zero =>
    intro k l
    simp [roundRobin, Function.iterate_zero_apply]
  | succ m ih =>
    intro k l
    cases l with
    | nil =>
      rw [roundRobin_nil, roundRobin_nil, rotate1_iterate, List.rotate_nil,
        roundRobin_nil, List.nil_append]
    | cons x xs =>
      have hh : m + 1 + k = (m + k) + 1 := by omega
      rw [hh]
      simp only [roundRobin]
      rw [ih k (xs ++ [x]), Function.iterate_succ_apply]
      rfl

theorem countOcc_append (p : String × RemoteRec) :
    ∀ (l1 l2 : List (String × RemoteRec)),
      countOcc p (l1 ++ l2) = countOcc p l1 + countOcc p l2 := by
  intro l1 l2
  induction l1 with
  | nil => simp [countOcc]
  | cons x xs ih =>
    rw [List.cons_append]
    simp only [countOcc]
    rw [ih]
    omega

theorem countOcc_eq_zero (p : String × RemoteRec) :
    ∀ (l : List (String × RemoteRec)), p ∉ l → countOcc p l = 0 := by
  intro l
  induction l with
  | nil => intro _; rfl
  | cons x xs ih =>
    intro h
    have hx : x ≠ p := fun hc => h (hc ▸ List.mem_cons_self _ _)
    have hxs : p ∉ xs := fun hc => h (List.mem_cons_of_mem _ hc)
    simp [countOcc, hx, ih hxs]

theorem countOcc_nodup_one (p : String × RemoteRec) :
    ∀ (l : List (String × RemoteRec)), l.Nodup → p ∈ l → countOcc p l = 1 := by
  intro l
  induction l with
  | nil => intro _ h; simp at h
  | cons x xs ih =>
    intro hd hp
    rcases List.nodup_cons.mp hd with ⟨hx, hxs⟩
    by_cases hxp : x = p
    · subst hxp
      simp [countOcc, countOcc_eq_zero x xs hx]
    · rcases List.mem_cons.mp hp with hc | hc
      · exact absurd hc.symm hxp
      · simp [countOcc, hxp, ih hxs hc]

theorem countOcc_take_le (p : String × RemoteRec) (l : List (String × RemoteRec))
    (r : Nat) : countOcc p (l.take r) ≤ countOcc p l := by
  conv_rhs => rw [← List.take_append_drop r l]
  rw [countOcc_append]
  omega

theorem roundRobin_count (l : List (String × RemoteRec))
    (hd : l.Nodup) (p : String × RemoteRec) (hp : p ∈ l) :
    ∀ (q r : Nat), r ≤ l.length →
      countOcc p (roundRobin (q * l.length + r) l) = q + countOcc p (l.take r) := by
  intro q
  induction q with
  | zero =>
    intro r hr
    rw [Nat.zero_mul, Nat.zero_add, Nat.zero_add, roundRobin_take r l hr]
  | succ q ih =>
    intro r hr
    have h1 : (q + 1) * l.length + r = l.length + (q * l.length + r) := by
      rw [Nat.succ_mul]
      omega
    rw [h1, roundRobin_add, countOcc_append, rotate1_iterate, List.rotate_length,
      roundRobin_take l.length l (le_refl _), List.take_length,
      countOcc_nodup_one p l hd hp, ih r hr]
    omega

/-- C8: each attempt of the work loop's peer-fetch step takes the current
head of the remotes linked list and rotates it to the tail before dialing
it (so with every dial succeeding, one `JobRequest` dispatch selects the
head and rotates by one); consequently, over `k` consecutive dispatches
against a fixed set of `n ≥ 1` distinct peers, each peer is selected
either `⌊k/n⌋` or `⌈k/n⌉ = (k + n - 1) / n` times. -/
theorem peer_round_robin_fair :
    (∀ (dial : RemoteRec → Bool) (x : String × RemoteRec)
        (xs : List (String × RemoteRec)) (m : Nat),
        (∀ r, dial r = true) →
        workRemotes dial (m + 1) (x :: xs) = (rotate1 (x :: xs), some x.2)) ∧
    (∀ (l : List (String × RemoteRec)) (p : String × RemoteRec) (k : Nat),
        l ≠ [] → l.Nodup → p ∈ l →
        countOcc p (roundRobin k l) = k / l.length ∨
        countOcc p (roundRobin k l) = (k + l.length - 1) / l.length) := by
  constructor
  · intro dial x xs m h
    simp [workRemotes, h x.2, rotate1]
  · intro l p k hne hd hp
    have hn : 0 < l.length := List.length_pos.mpr hne
    have hr : k % l.length < l.length := Nat.mod_lt _ hn
    have hk : k / l.length * l.length + k % l.length = k := Nat.div_add_mod' k l.length
    have hcount := roundRobin_count l hd p hp (k / l.length) (k % l.length)
      (le_of_lt hr)
    rw [hk] at hcount
    have ht1 : countOcc p (l.take (k % l.length)) ≤ 1 :=
      le_trans (countOcc_take_le p l _) (le_of_eq (countOcc_nodup_one p l hd hp))
    rcases Nat.le_one_iff_eq_zero_or_eq_one.mp ht1 with ht | ht
    · left
      rw [hcount, ht, Nat.add_zero]
    · right
      rw [hcount, ht]
      have hr1 : 1 ≤ k % l.length := by
        by_contra hc
        have h0 : k % l.length = 0 := by omega
        rw [h0, List.take_zero] at ht
        simp [countOcc] at ht
      have hk' : k + l.length - 1
          = (k % l.length - 1) + (k / l.length + 1) * l.length := by
        rw [Nat.succ_mul]
        have hgen : k / l.length * l.length + k % l.length = k := hk
        generalize k / l.length * l.length = A at hgen ⊢
        omega
      rw [hk', Nat.add_mul_div_right _ _ hn,
        Nat.div_eq_of_lt (show k % l.length - 1 < l.length by omega), Nat.zero_add]

/-- Witness for C8: with the two-peer registry and every dial succeeding,
one fetch attempt selects head `a` and rotates it to the tail; over three
dispatches `a` is selected twice, which is `⌈3/2⌉`. -/
theorem peer_round_robin_fair_witness :
    workRemotes (fun _ => true) 2 twoRemotes
      = (rotate1 twoRemotes, some ⟨"a", 1⟩) ∧
    (countOcc ("a", ⟨"a", 1⟩) (roundRobin 3 twoRemotes) = 3 / twoRemotes.length ∨
      countOcc ("a", ⟨"a", 1⟩) (roundRobin 3 twoRemotes)
        = (3 + twoRemotes.length - 1) / twoRemotes.length) :=
  ⟨peer_round_robin_fair.1 (fun _ => true) ("a", ⟨"a", 1⟩) [("b", ⟨"b", 2⟩)] 1
      (fun _ => rfl),
   peer_round_robin_fair.2 twoRemotes ("a", ⟨"a", 1⟩) 3 (by decide) (by decide)
      (by decide)⟩

end RTags
